import Mathlib

/-!
Line editor (`main.cpp`): buffer engine and undo/redo history.

A shallow embedding of the classes `Cursor`, `BufferState` and `LineEditor`
of `main.cpp`, followed by theorems about the embedded operations.

Modelling conventions.

* A `std::string` is a `List Char`; a `std::vector<std::string>` is a list of
  lines, index `0` first.
* A `std::stack<BufferState>` is a list whose head is the top of the stack:
  `push` is cons, `pop` is tail, `top` is head.  "Oldest first" is therefore
  the reverse of the list.
* A C++ `int` is the type `CInt` (an integer in the 32 bit range).  Where the
  source compares an `int` with a `size_t`, or passes an `int` where a
  `size_t` is expected, the value is converted modulo `2 ^ 64` (`CInt.toSize`).
  Where the source narrows a `size_t` to an `int`, the value is wrapped into
  the 32 bit range (`CInt.ofInt`).
* Memory is unbounded: container sizes are natural numbers, and `push_back`
  fails only on a vector that has reached `max_size()` (`vectorMaxSize`), where
  it throws.  The padding loop of `insertLine` therefore runs to its end for
  every position that is not negative.  A negative position is turned by the
  comparison with `buffer.size()` into a value near `2 ^ 64`, which no size
  reaches: the loop is left by the exception of `push_back`, before
  `saveBufferState`, with the padding left in the buffer.
* A member function returns an `Outcome`: the editor after the call, the text
  written to `std::cout`, and the exception that left the call, if any.
-/

namespace MainCpp

/-! ## Machine integers -/

/-- A C++ `int`: an integer in the range of a 32 bit two's complement word. -/
structure CInt where
  val : Int
  inRange : -2147483648 ≤ val ∧ val < 2147483648

/-- Narrowing conversion to `int`: wrap into the 32 bit range. -/
def CInt.ofInt (i : Int) : CInt :=
  ⟨(i + 2147483648) % 4294967296 - 2147483648, by omega⟩

/-- Conversion of an `int` to `size_t` (64 bit unsigned): reduction modulo `2 ^ 64`. -/
def CInt.toSize (i : CInt) : Nat :=
  (i.val % 18446744073709551616).toNat

/-! ## Data model -/

/-- A `std::string`. -/
abbrev Line := List Char

/-- Class `Cursor`. -/
structure Cursor where
  lineNumber : CInt
  position : CInt

/-- The default constructed cursor `Cursor()`: `lineNumber = -1`, `position = -1`. -/
def Cursor.default : Cursor :=
  ⟨⟨-1, by decide⟩, ⟨-1, by decide⟩⟩

/-- Class `BufferState`: a copy of the lines and the tag of the operation
(`'I'`, `'D'` or `'U'`). -/
structure BufferState where
  lines : List Line
  operation : Char
deriving DecidableEq

/-- The constant `MAX_LINES`. -/
def MAX_LINES : Nat := 25

/-- The constant `UNDO_LIMIT`. -/
def UNDO_LIMIT : Nat := 3

/-- The data members of class `LineEditor`. -/
structure LineEditor where
  buffer : List Line
  undoStack : List BufferState
  redoStack : List BufferState
deriving DecidableEq

/-- The constructor `LineEditor()`: an empty buffer and two empty stacks
(`reserve` changes the capacity only). -/
def LineEditor.new : LineEditor :=
  ⟨[], [], []⟩

/-- The exceptions thrown by the member functions. -/
inductive EditorError where
  /-- A `std::runtime_error` "Cannot insert line: buffer is full (maximum 25 lines)". -/
  | bufferFull
  /-- A `std::out_of_range` "Invalid line number". -/
  | invalidLineNumber
  /-- The `std::out_of_range` thrown by `std::string::insert` when the offset
  exceeds the length of the string. -/
  | stringOutOfRange
  /-- The `std::length_error` thrown by `push_back` on a vector that cannot grow. -/
  | lengthError
deriving DecidableEq

/-- What a call of a member function leaves behind. -/
structure Outcome where
  editor : LineEditor
  out : String
  error : Option EditorError
deriving DecidableEq

/-! ## Library operations used by the source -/

/-- The call `v.insert(v.begin() + i, x)` of `std::vector`, for `i ≤ v.size()`. -/
def vectorInsert (v : List Line) (i : Nat) (x : Line) : List Line :=
  match v, i with
  | v, 0 => x :: v
  | [], _ + 1 => [x]
  | y :: ys, i + 1 => y :: vectorInsert ys i x

/-- The call `v.erase(v.begin() + i)` of `std::vector`. -/
def vectorErase (v : List Line) (i : Nat) : List Line :=
  match v, i with
  | [], _ => []
  | _ :: ys, 0 => ys
  | y :: ys, i + 1 => y :: vectorErase ys i

/-- The call `s.insert(pos, word)` of `std::string`: `none` stands for the
`std::out_of_range` thrown when `pos > s.size()`. -/
def stringInsert (s : Line) (pos : Nat) (word : Line) : Option Line :=
  if pos > s.length then none else some (s.take pos ++ word ++ s.drop pos)

/-- The scan of `std::string::find`: the first offset, counted from `idx`,
at which `word` starts in `rest`. -/
def findAt (word : Line) (rest : Line) (idx : Nat) : Option Nat :=
  match rest with
  | [] => if word.isPrefixOf [] then some idx else none
  | c :: tl => if word.isPrefixOf (c :: tl) then some idx else findAt word tl (idx + 1)

/-- The call `s.find(word, pos)` of `std::string`: `none` stands for `npos`. -/
def stringFind (s : Line) (word : Line) (pos : Nat) : Option Nat :=
  if pos > s.length then none else findAt word (s.drop pos) pos

/-- The call `s.replace(pos, n, str)` of `std::string`, for `pos ≤ s.size()`. -/
def stringReplace (s : Line) (pos n : Nat) (str : Line) : Line :=
  s.take pos ++ str ++ s.drop (pos + min n (s.length - pos))

/-- The call `s.erase(pos, n)` of `std::string`, for `pos ≤ s.size()`. -/
def stringErase (s : Line) (pos n : Nat) : Line :=
  s.take pos ++ s.drop (pos + min n (s.length - pos))

/-- The call `s.substr(0, n)` of `std::string`. -/
def stringSubstr0 (s : Line) (n : Nat) : Line :=
  s.take (min n s.length)

/-- Assignment to the element `v[i]` of a vector, for `i < v.size()`. -/
def vectorSet (v : List Line) (i : Nat) (x : Line) : List Line :=
  v.set i x

/-- The element `v[i]` of a vector, for `i < v.size()`. -/
def vectorGet (v : List Line) (i : Nat) : Line :=
  v.getD i []

/-! ## The member functions of `LineEditor` -/

namespace LineEditor

/-- The loop `while (undoStack.size() > UNDO_LIMIT) undoStack.pop();` of
`saveBufferState`: `pop` removes the top of the stack, the head of the list. -/
def popWhileOver (stack : List BufferState) : List BufferState :=
  match stack with
  | [] => []
  | s :: rest => if (s :: rest).length > UNDO_LIMIT then popWhileOver rest else s :: rest

/-- The private member `saveBufferState`: push a copy of the buffer, pop while
the stack is above the limit, replace the redo stack by an empty one. -/
def saveBufferState (e : LineEditor) (operation : Char) : LineEditor :=
  { buffer := e.buffer
    undoStack := popWhileOver (⟨e.buffer, operation⟩ :: e.undoStack)
    redoStack := [] }

/-- The largest size of the vector `buffer` (`buffer.max_size()`), at which
`push_back` throws.  The library bounds it by `PTRDIFF_MAX`, which is the value
taken here; it is larger than every `int` and smaller than every negative `int`
converted to `size_t`. -/
def vectorMaxSize : Nat := 9223372036854775807

/-- What the padding loop of `insertLine` leaves: the buffer, and whether the
loop was left by the exception of `push_back`. -/
structure PadResult where
  buffer : List Line
  threw : Bool
deriving DecidableEq

/-- The loop `while (position > buffer.size()) buffer.push_back("");` of
`insertLine`, `position` already converted to `size_t`.  `push_back` throws on
a vector of `vectorMaxSize` elements.  The last argument bounds the number of
iterations. -/
def padLoop (position : Nat) (buffer : List Line) (fuel : Nat) : PadResult :=
  match fuel with
  | 0 => ⟨buffer, false⟩
  | fuel + 1 =>
    if position > buffer.length then
      if buffer.length ≥ vectorMaxSize then ⟨buffer, true⟩
      else padLoop position (buffer ++ [[]]) fuel
    else ⟨buffer, false⟩

/-- The text of `std::cout << msg << buffer.size() << "/" << MAX_LINES << std::endl`. -/
def sizeReport (msg : String) (size : Nat) : String :=
  msg ++ toString size ++ "/" ++ toString MAX_LINES ++ "\n"

/-- Member `insertLine`.  The padding loop runs with `position` iterations
available, which is never fewer than it needs (`padLoop_exit`,
`padLoop_threw`).  When `push_back` throws in the loop, the exception leaves
the call with the padding done so far in the buffer and the stacks untouched. -/
def insertLine (e : LineEditor) (position : CInt) (text : Line) : Outcome :=
  if e.buffer.length ≥ MAX_LINES then
    ⟨e, "", some EditorError.bufferFull⟩
  else
    let padded := padLoop position.toSize e.buffer position.toSize
    if padded.threw then
      ⟨{ e with buffer := padded.buffer }, "", some EditorError.lengthError⟩
    else
      let e1 := saveBufferState { e with buffer := padded.buffer } 'I'
      let buffer2 :=
        if position.toSize = e1.buffer.length then e1.buffer ++ [text]
        else vectorInsert e1.buffer position.toSize text
      ⟨{ e1 with buffer := buffer2 },
        sizeReport "Line inserted successfully. Buffer size: " buffer2.length, none⟩

/-- The test `cursor.lineNumber >= 0 && cursor.lineNumber < buffer.size()`. -/
def lineInRange (e : LineEditor) (lineNumber : CInt) : Bool :=
  decide (0 ≤ lineNumber.val) && decide (lineNumber.toSize < e.buffer.length)

/-- Member `insertWord`. -/
def insertWord (e : LineEditor) (cursor : Cursor) (word : Line) : Outcome :=
  if lineInRange e cursor.lineNumber then
    let e1 := saveBufferState e 'U'
    let n := cursor.lineNumber.toSize
    match stringInsert (vectorGet e1.buffer n) cursor.position.toSize word with
    | none => ⟨e1, "", some EditorError.stringOutOfRange⟩
    | some line => ⟨{ e1 with buffer := vectorSet e1.buffer n line }, "", none⟩
  else
    ⟨e, "", none⟩

/-- The loop of `searchWord` over the lines from index `i` on. -/
def searchFrom (word : Line) (lines : List Line) (i : Nat) : Cursor :=
  match lines with
  | [] => Cursor.default
  | line :: rest =>
    match stringFind line word 0 with
    | some pos => ⟨CInt.ofInt i, CInt.ofInt pos⟩
    | none => searchFrom word rest (i + 1)

/-- Member `searchWord`. -/
def searchWord (e : LineEditor) (word : Line) : Cursor :=
  searchFrom word e.buffer 0

/-- Member `updateWord`. -/
def updateWord (e : LineEditor) (cursor : Cursor) (oldWord newWord : Line) : Outcome :=
  if lineInRange e cursor.lineNumber then
    let e1 := saveBufferState e 'U'
    let n := cursor.lineNumber.toSize
    let line := vectorGet e1.buffer n
    match stringFind line oldWord cursor.position.toSize with
    | some pos =>
      ⟨{ e1 with buffer := vectorSet e1.buffer n (stringReplace line pos oldWord.length newWord) },
        "", none⟩
    | none => ⟨e1, "", none⟩
  else
    ⟨e, "", none⟩

/-- Member `updateLine`. -/
def updateLine (e : LineEditor) (lineNumber startPos : CInt) (newText : Line) : Outcome :=
  if lineNumber.val < 0 ∨ lineNumber.toSize ≥ e.buffer.length then
    ⟨e, "", some EditorError.invalidLineNumber⟩
  else
    let e1 := saveBufferState e 'U'
    let n := lineNumber.toSize
    let line := vectorGet e1.buffer n
    if startPos.toSize ≤ line.length then
      ⟨{ e1 with buffer := vectorSet e1.buffer n (stringSubstr0 line startPos.toSize ++ newText) },
        "", none⟩
    else
      ⟨e1, "", none⟩

/-- Member `deleteLine`. -/
def deleteLine (e : LineEditor) (lineNumber : CInt) : Outcome :=
  if lineNumber.val < 0 ∨ lineNumber.toSize ≥ e.buffer.length then
    ⟨e, "", some EditorError.invalidLineNumber⟩
  else
    let e1 := saveBufferState e 'D'
    let buffer2 := vectorErase e1.buffer lineNumber.toSize
    ⟨{ e1 with buffer := buffer2 },
      sizeReport "Line deleted successfully. Buffer size: " buffer2.length, none⟩

/-- Member `deleteWord`. -/
def deleteWord (e : LineEditor) (cursor : Cursor) (word : Line) : Outcome :=
  if lineInRange e cursor.lineNumber then
    let e1 := saveBufferState e 'D'
    let n := cursor.lineNumber.toSize
    let line := vectorGet e1.buffer n
    match stringFind line word cursor.position.toSize with
    | some pos =>
      ⟨{ e1 with buffer := vectorSet e1.buffer n (stringErase line pos word.length) }, "", none⟩
    | none => ⟨e1, "", none⟩
  else
    ⟨e, "", none⟩

/-- Member `undo`. -/
def undo (e : LineEditor) : Outcome :=
  match e.undoStack with
  | top :: rest =>
    ⟨{ buffer := top.lines, undoStack := rest, redoStack := ⟨e.buffer, 'U'⟩ :: e.redoStack },
      sizeReport "Undo performed. Buffer size: " top.lines.length, none⟩
  | [] => ⟨e, "Nothing to undo\n", none⟩

/-- Member `redo`. -/
def redo (e : LineEditor) : Outcome :=
  match e.redoStack with
  | top :: rest =>
    ⟨{ buffer := top.lines, undoStack := ⟨e.buffer, 'U'⟩ :: e.undoStack, redoStack := rest },
      sizeReport "Redo performed. Buffer size: " top.lines.length, none⟩
  | [] => ⟨e, "Nothing to redo\n", none⟩

end LineEditor

/-! ## Calls and reachable states -/

/-- A call of one of the engine operations, with its arguments. -/
inductive Op where
  | insertLine (position : CInt) (text : Line)
  | insertWord (cursor : Cursor) (word : Line)
  | searchWord (word : Line)
  | updateWord (cursor : Cursor) (oldWord newWord : Line)
  | updateLine (lineNumber startPos : CInt) (newText : Line)
  | deleteLine (lineNumber : CInt)
  | deleteWord (cursor : Cursor) (word : Line)
  | undo
  | redo

/-- Run a call on an editor.  `searchWord` writes nothing and changes nothing. -/
def Op.run (op : Op) (e : LineEditor) : Outcome :=
  match op with
  | Op.insertLine position text => e.insertLine position text
  | Op.insertWord cursor word => e.insertWord cursor word
  | Op.searchWord _ => ⟨e, "", none⟩
  | Op.updateWord cursor oldWord newWord => e.updateWord cursor oldWord newWord
  | Op.updateLine lineNumber startPos newText => e.updateLine lineNumber startPos newText
  | Op.deleteLine lineNumber => e.deleteLine lineNumber
  | Op.deleteWord cursor word => e.deleteWord cursor word
  | Op.undo => e.undo
  | Op.redo => e.redo

/-- The mutating operations: all but `searchWord`, `undo` and `redo`. -/
def Op.isMutating (op : Op) : Bool :=
  match op with
  | Op.searchWord _ => false
  | Op.undo => false
  | Op.redo => false
  | _ => true

/-- The call reaches `saveBufferState`: `insertLine` on a buffer that is not
full with a position that is not negative (with a negative position the
padding loop is left by an exception), `updateLine` and `deleteLine` with a
valid line number, and the word level operations with a cursor line in range. -/
def Op.takesSnapshot (op : Op) (e : LineEditor) : Bool :=
  match op with
  | Op.insertLine position _ => decide (e.buffer.length < MAX_LINES) && decide (0 ≤ position.val)
  | Op.insertWord cursor _ => e.lineInRange cursor.lineNumber
  | Op.updateWord cursor _ _ => e.lineInRange cursor.lineNumber
  | Op.updateLine lineNumber _ _ => e.lineInRange lineNumber
  | Op.deleteLine lineNumber => e.lineInRange lineNumber
  | Op.deleteWord cursor _ => e.lineInRange cursor.lineNumber
  | Op.searchWord _ => false
  | Op.undo => false
  | Op.redo => false

/-- The states an editor can be in: the fresh editor, and every state left by
a call that satisfies `allowed` on a state of this kind, whether the call
returns or throws. -/
inductive ReachableVia (allowed : Op → LineEditor → Prop) : LineEditor → Prop where
  | fresh : ReachableVia allowed LineEditor.new
  | step (e : LineEditor) (op : Op) :
      ReachableVia allowed e → allowed op e → ReachableVia allowed (op.run e).editor

/-- Reachable by any sequence of calls. -/
def Reachable (e : LineEditor) : Prop :=
  ReachableVia (fun _ _ => True) e

/-- The state after a sequence of calls, made one after the other. -/
def runAll (ops : List Op) (e : LineEditor) : LineEditor :=
  match ops with
  | [] => e
  | op :: rest => runAll rest (op.run e).editor

/-- The padding loop of `insertLine` runs at least once: the loop condition
`position > buffer.size()` holds on entry. -/
def Op.pads (op : Op) (e : LineEditor) : Bool :=
  match op with
  | Op.insertLine position _ => decide (position.toSize > e.buffer.length)
  | _ => false

/-- The line numbers the shell passes to `insertLine`: it rejects user input
outside `1..25` and passes `lineNum - 1`. -/
def Op.shellRange (op : Op) : Prop :=
  match op with
  | Op.insertLine position _ => 0 ≤ position.val ∧ position.val ≤ 24
  | _ => True

/-- The position of an `insertLine` call is not negative. -/
def Op.positionNonneg (op : Op) : Prop :=
  match op with
  | Op.insertLine position _ => 0 ≤ position.val
  | _ => True

/-- The fresh editor after `insertLine(0, "a")`. -/
def oneLine : LineEditor :=
  runAll [Op.insertLine (CInt.ofInt 0) ['a']] LineEditor.new

/-- The fresh editor after `insertLine(0, "a")`, `insertLine(1, "b")` and
`insertLine(2, "c")`: the buffer is `a`, `b`, `c` and the undo stack holds
three snapshots. -/
def threeLines : LineEditor :=
  runAll [Op.insertLine (CInt.ofInt 0) ['a'], Op.insertLine (CInt.ofInt 1) ['b'],
    Op.insertLine (CInt.ofInt 2) ['c']] LineEditor.new

/-- The fresh editor after `insertLine(0, "a")` and `undo`: the buffer and the
undo stack are empty and the redo stack holds one snapshot. -/
def oneUndone : LineEditor :=
  runAll [Op.insertLine (CInt.ofInt 0) ['a'], Op.undo] LineEditor.new

/-- The fresh editor after `insertLine(0, "a")`, `insertLine(1, "b")` and
`undo`: the buffer is `a`, the undo stack holds the empty snapshot and the redo
stack holds the snapshot `a`, `b`. -/
def twoThenUndo : LineEditor :=
  runAll [Op.insertLine (CInt.ofInt 0) ['a'], Op.insertLine (CInt.ofInt 1) ['b'],
    Op.undo] LineEditor.new

/-- The fresh editor after three inserts and three `undo`: the undo stack is
empty and the redo stack holds three snapshots. -/
def threeUndone : LineEditor :=
  runAll [Op.insertLine (CInt.ofInt 0) ['a'], Op.insertLine (CInt.ofInt 1) ['b'],
    Op.insertLine (CInt.ofInt 2) ['c'], Op.undo, Op.undo, Op.undo] LineEditor.new

/-- The fresh editor after three inserts, `undo` and `redo`. -/
def threeUndoRedo : LineEditor :=
  runAll [Op.insertLine (CInt.ofInt 0) ['a'], Op.insertLine (CInt.ofInt 1) ['b'],
    Op.insertLine (CInt.ofInt 2) ['c'], Op.undo, Op.redo] LineEditor.new

/-- An editor with a full buffer of 25 empty lines and a pending redo. -/
def fullBuffer : LineEditor :=
  ⟨List.replicate 25 [], [⟨[], 'I'⟩], [⟨[['z']], 'U'⟩]⟩

/-- The two stacks together hold at most `UNDO_LIMIT` snapshots. -/
def historyBounded (e : LineEditor) : Prop :=
  e.undoStack.length + e.redoStack.length ≤ UNDO_LIMIT

/-- A call that returns without an exception, with any position that is not
negative for `insertLine`. -/
def successfulNonneg (op : Op) (e : LineEditor) : Prop :=
  (op.run e).error = none ∧ op.positionNonneg

/-- A call that returns without an exception, with a position the shell can
pass for `insertLine`. -/
def successfulShell (op : Op) (e : LineEditor) : Prop :=
  (op.run e).error = none ∧ op.shellRange

/-- Every snapshot of a stack has at most `MAX_LINES` lines. -/
def snapshotsBounded (stack : List BufferState) : Prop :=
  ∀ s ∈ stack, s.lines.length ≤ MAX_LINES

/-- The buffer and every snapshot of the two stacks have at most `MAX_LINES` lines. -/
def linesBounded (e : LineEditor) : Prop :=
  e.buffer.length ≤ MAX_LINES ∧ snapshotsBounded e.undoStack ∧ snapshotsBounded e.redoStack

/-! ## Display -/

/-- Member `displayLine`: the text written for one line number, nothing when
the number is out of range.  The sum `lineNumber + 1` is taken in the integers. -/
def LineEditor.displayLine (e : LineEditor) (lineNumber : CInt) : String :=
  if e.lineInRange lineNumber then
    "[Line No" ++ toString (lineNumber.val + 1) ++ ":] "
      ++ (if (vectorGet e.buffer lineNumber.toSize).isEmpty then "(empty)"
          else String.mk (vectorGet e.buffer lineNumber.toSize))
      ++ "\n"
  else
    ""

/-- The loop of `displayBuffer` over the indices `is`; the call `displayLine(i)`
narrows the `size_t` index to `int`. -/
def LineEditor.displayLines (e : LineEditor) (is : List Nat) : String :=
  match is with
  | [] => ""
  | i :: rest => e.displayLine (CInt.ofInt i) ++ e.displayLines rest

/-- Member `displayBuffer`: the text written to `std::cout`. -/
def LineEditor.displayBuffer (e : LineEditor) : String :=
  if e.buffer.isEmpty then
    "Buffer is empty\n"
  else
    "\nBuffer contents (" ++ toString e.buffer.length ++ "/" ++ toString MAX_LINES
      ++ " lines):\n" ++ e.displayLines (List.range e.buffer.length)

/-! ## Notions used to state the properties -/

/-- The line number is out of range for the buffer: negative, or at least the
number of lines. -/
def lineOutOfRange (e : LineEditor) (lineNumber : CInt) : Prop :=
  lineNumber.val < 0 ∨ (e.buffer.length : Int) ≤ lineNumber.val

/-- The characters of `line` from offset `p` on start with `word`, all of it
inside the line: `word` occurs in `line` at offset `p`. -/
def occursAt (line word : Line) (p : Nat) : Prop :=
  p + word.length ≤ line.length ∧ (line.drop p).take word.length = word

instance occursAtDecidable (line word : Line) (p : Nat) : Decidable (occursAt line word p) := by
  unfold occursAt
  exact inferInstance

/-- The line contains `word` as a contiguous substring. -/
def containsWord (line word : Line) : Prop :=
  ∃ p, occursAt line word p

/-- Any call, with a position the shell can pass for `insertLine`. -/
def shellCall (op : Op) (_e : LineEditor) : Prop :=
  op.shellRange

/-- The numbers of the lines and the offsets in them fit in an `int`: fewer
than `2 ^ 31` lines, each of fewer than `2 ^ 31` characters. -/
def fitsInt (e : LineEditor) : Prop :=
  e.buffer.length < 2147483648 ∧ ∀ line ∈ e.buffer, line.length < 2147483648

/-- The pair `(i, p)` is the first match of `word` in the lines: line `i` is
the first line that contains `word`, and `p` is the smallest offset at which
`word` occurs in it. -/
def firstMatch (lines : List Line) (word : Line) (i p : Nat) : Prop :=
  i < lines.length ∧ occursAt (lines.getD i []) word p
    ∧ (∀ j, j < i → ¬ containsWord (lines.getD j []) word)
    ∧ (∀ q, q < p → ¬ occursAt (lines.getD i []) word q)

/-- A line of `2 ^ 31` characters `a` followed by one `b`. -/
def longLine : Line :=
  List.replicate 2147483648 'a' ++ ['b']

/-- The editor whose buffer is the single line `longLine`. -/
def longLineEditor : LineEditor :=
  ⟨[longLine], [], []⟩

/-- The buffer `cat dog`, `dog cat`, with empty stacks. -/
def catDog : LineEditor :=
  ⟨[['c', 'a', 't', ' ', 'd', 'o', 'g'], ['d', 'o', 'g', ' ', 'c', 'a', 't']], [], []⟩

end MainCpp

namespace MainCpp

open LineEditor

/-! ## Machine integers and library operations -/

theorem CInt.toSize_of_nonneg (i : CInt) (h : 0 ≤ i.val) : i.toSize = i.val.toNat := by
  have h2 := i.inRange.2
  unfold CInt.toSize
  rw [Int.emod_eq_of_lt h (by omega)]

theorem CInt.toSize_lt_of_nonneg (i : CInt) (h : 0 ≤ i.val) : i.toSize < 2147483648 := by
  have h2 := i.inRange.2
  rw [CInt.toSize_of_nonneg i h]
  omega

theorem CInt.toSize_le_vectorMaxSize (i : CInt) (h : 0 ≤ i.val) : i.toSize ≤ vectorMaxSize := by
  have h2 := CInt.toSize_lt_of_nonneg i h
  unfold vectorMaxSize
  omega

theorem CInt.toSize_of_neg (i : CInt) (h : i.val < 0) :
    vectorMaxSize < i.toSize ∧ 2147483648 < i.toSize := by
  have h1 := i.inRange.1
  unfold CInt.toSize vectorMaxSize
  omega

theorem vectorInsert_eq (v : List Line) (i : Nat) (x : Line) (h : i ≤ v.length) :
    vectorInsert v i x = v.take i ++ [x] ++ v.drop i := by
  induction v generalizing i with
  | nil =>
    cases i with
    | zero => simp [vectorInsert]
    | succ n => simp at h
  | cons y ys ih =>
    cases i with
    | zero => simp [vectorInsert]
    | succ n =>
      have hn : n ≤ ys.length := by simpa using h
      simp [vectorInsert, ih n hn]

theorem vectorInsert_length (v : List Line) (i : Nat) (x : Line) :
    (vectorInsert v i x).length = v.length + 1 := by
  induction v generalizing i with
  | nil => cases i <;> simp [vectorInsert]
  | cons y ys ih => cases i <;> simp [vectorInsert, ih]

theorem vectorErase_length_le (v : List Line) (i : Nat) :
    (vectorErase v i).length ≤ v.length := by
  induction v generalizing i with
  | nil => simp [vectorErase]
  | cons y ys ih =>
    cases i with
    | zero => simp [vectorErase]
    | succ n => simpa [vectorErase] using ih n

namespace LineEditor

/-! ## The two loops -/

theorem padLoop_eq (position : Nat) (buffer : List Line) (fuel : Nat)
    (hmax : position ≤ vectorMaxSize) (h : position - buffer.length ≤ fuel) :
    padLoop position buffer fuel
      = ⟨buffer ++ List.replicate (position - buffer.length) [], false⟩ := by
  induction fuel generalizing buffer with
  | zero =>
    have h0 : position - buffer.length = 0 := by omega
    simp [padLoop, h0]
  | succ n ih =>
    unfold padLoop
    split
    · rename_i hgt
      have hlen : (buffer ++ [([] : Line)]).length = buffer.length + 1 := by simp
      rw [if_neg (by omega), ih (buffer ++ [[]]) (by rw [hlen]; omega), hlen]
      have hs : position - buffer.length = (position - (buffer.length + 1)) + 1 := by omega
      rw [hs, List.replicate_succ]
      simp
    · rename_i hle
      have h0 : position - buffer.length = 0 := by omega
      simp [h0]

/-- With `position` iterations available and a position that a vector can
reach, the padding loop ends because its condition fails, not because the
bound is used up, and `push_back` does not throw. -/
theorem padLoop_exit (position : Nat) (buffer : List Line) (hmax : position ≤ vectorMaxSize) :
    ¬ position > (padLoop position buffer position).buffer.length
      ∧ (padLoop position buffer position).threw = false := by
  rw [padLoop_eq position buffer position hmax (by omega)]
  simp
  omega

theorem padLoop_self (position : Nat) (buffer : List Line) (hmax : position ≤ vectorMaxSize) :
    padLoop position buffer position
      = ⟨buffer ++ List.replicate (position - buffer.length) [], false⟩ :=
  padLoop_eq position buffer position hmax (by omega)

/-- With a position that no vector can reach, the padding loop is left by the
exception of `push_back`, not because the bound on the iterations is used up,
and it leaves the buffer it found with empty lines added. -/
theorem padLoop_threw (position : Nat) (buffer : List Line) (fuel : Nat)
    (hmax : vectorMaxSize < position) (hlen : buffer.length < position)
    (hfuel : position - buffer.length ≤ fuel) :
    (padLoop position buffer fuel).threw = true
      ∧ ∃ k, (padLoop position buffer fuel).buffer = buffer ++ List.replicate k [] := by
  induction fuel generalizing buffer with
  | zero => omega
  | succ n ih =>
    unfold padLoop
    rw [if_pos hlen]
    by_cases hfull : buffer.length ≥ vectorMaxSize
    · rw [if_pos hfull]
      exact ⟨rfl, 0, by simp⟩
    · rw [if_neg hfull]
      have hl : (buffer ++ [([] : Line)]).length = buffer.length + 1 := by simp
      obtain ⟨ht, k, hk⟩ := ih (buffer ++ [[]]) (by rw [hl]; omega) (by rw [hl]; omega)
      refine ⟨ht, k + 1, ?_⟩
      rw [hk, List.replicate_succ]
      simp

theorem popWhileOver_length_le (stack : List BufferState) :
    (popWhileOver stack).length ≤ UNDO_LIMIT := by
  induction stack with
  | nil => simp [popWhileOver]
  | cons s rest ih =>
    unfold popWhileOver
    split
    · exact ih
    · rename_i h
      omega

theorem popWhileOver_of_le (stack : List BufferState) (h : stack.length ≤ UNDO_LIMIT) :
    popWhileOver stack = stack := by
  cases stack with
  | nil => rfl
  | cons s rest =>
    unfold popWhileOver
    rw [if_neg (by omega)]

theorem popWhileOver_subset (stack : List BufferState) :
    ∀ s ∈ popWhileOver stack, s ∈ stack := by
  induction stack with
  | nil => simp [popWhileOver]
  | cons x rest ih =>
    intro s hs
    unfold popWhileOver at hs
    split at hs
    · exact List.mem_cons_of_mem _ (ih s hs)
    · exact hs

theorem popWhileOver_ne_nil (s : BufferState) (rest : List BufferState) :
    popWhileOver (s :: rest) ≠ [] := by
  induction rest generalizing s with
  | nil => simp [popWhileOver, UNDO_LIMIT]
  | cons x xs ih =>
    unfold popWhileOver
    split
    · exact ih x
    · simp

end LineEditor

end MainCpp

namespace MainCpp

open LineEditor

/-! ## Snapshots taken by the operations -/

theorem saveBufferState_undoStack_ne_nil (e : LineEditor) (tag : Char) :
    (e.saveBufferState tag).undoStack ≠ [] :=
  popWhileOver_ne_nil _ _

/-- A call that reaches `saveBufferState` leaves the redo stack empty and the
undo stack equal to the old one with a snapshot pushed and the loop of
`saveBufferState` run on it; without padding the snapshot is the old buffer. -/
theorem run_of_takesSnapshot (op : Op) (e : LineEditor) (h : op.takesSnapshot e = true) :
    ∃ b tag, (op.run e).editor.undoStack = popWhileOver (⟨b, tag⟩ :: e.undoStack)
      ∧ (op.run e).editor.redoStack = []
      ∧ (op.pads e = false → b = e.buffer) := by
  cases op with
  | insertLine position text =>
    have h2 : e.buffer.length < MAX_LINES ∧ 0 ≤ position.val := by
      simpa [Op.takesSnapshot] using h
    have hlt : ¬ e.buffer.length ≥ MAX_LINES := by omega
    have hmax := CInt.toSize_le_vectorMaxSize position h2.2
    refine ⟨e.buffer ++ List.replicate (position.toSize - e.buffer.length) [], 'I', ?_, ?_, ?_⟩
    · simp [Op.run, insertLine, hlt, padLoop_self _ _ hmax, saveBufferState]
    · simp [Op.run, insertLine, hlt, padLoop_self _ _ hmax, saveBufferState]
    · intro hp
      have hle : position.toSize ≤ e.buffer.length := by
        simpa [Op.pads] using hp
      have h0 : position.toSize - e.buffer.length = 0 := by omega
      simp [h0]
  | insertWord cursor word =>
    have hr : e.lineInRange cursor.lineNumber = true := h
    refine ⟨e.buffer, 'U', ?_, ?_, fun _ => rfl⟩
    · simp only [Op.run, insertWord, hr, if_true]
      split <;> simp [saveBufferState]
    · simp only [Op.run, insertWord, hr, if_true]
      split <;> simp [saveBufferState]
  | searchWord word => simp [Op.takesSnapshot] at h
  | updateWord cursor oldWord newWord =>
    have hr : e.lineInRange cursor.lineNumber = true := h
    refine ⟨e.buffer, 'U', ?_, ?_, fun _ => rfl⟩
    · simp only [Op.run, updateWord, hr, if_true]
      split <;> simp [saveBufferState]
    · simp only [Op.run, updateWord, hr, if_true]
      split <;> simp [saveBufferState]
  | updateLine lineNumber startPos newText =>
    have hr : ¬ (lineNumber.val < 0 ∨ lineNumber.toSize ≥ e.buffer.length) := by
      have h2 : e.lineInRange lineNumber = true := h
      simp only [lineInRange, Bool.and_eq_true, decide_eq_true_eq] at h2
      omega
    refine ⟨e.buffer, 'U', ?_, ?_, fun _ => rfl⟩
    · simp only [Op.run, updateLine, hr, if_false]
      split <;> simp [saveBufferState]
    · simp only [Op.run, updateLine, hr, if_false]
      split <;> simp [saveBufferState]
  | deleteLine lineNumber =>
    have hr : ¬ (lineNumber.val < 0 ∨ lineNumber.toSize ≥ e.buffer.length) := by
      have h2 : e.lineInRange lineNumber = true := h
      simp only [lineInRange, Bool.and_eq_true, decide_eq_true_eq] at h2
      omega
    refine ⟨e.buffer, 'D', ?_, ?_, fun _ => rfl⟩
    · simp only [Op.run, deleteLine, hr, if_false]
      simp [saveBufferState]
    · simp only [Op.run, deleteLine, hr, if_false]
      simp [saveBufferState]
  | deleteWord cursor word =>
    have hr : e.lineInRange cursor.lineNumber = true := h
    refine ⟨e.buffer, 'D', ?_, ?_, fun _ => rfl⟩
    · simp only [Op.run, deleteWord, hr, if_true]
      split <;> simp [saveBufferState]
    · simp only [Op.run, deleteWord, hr, if_true]
      split <;> simp [saveBufferState]
  | undo => simp [Op.takesSnapshot] at h
  | redo => simp [Op.takesSnapshot] at h

/-- With a negative position on a buffer that is not full, `insertLine` ends
in the exception of `push_back`: the stacks are untouched and the buffer is the
old one with empty lines added. -/
theorem insertLine_of_neg (e : LineEditor) (position : CInt) (text : Line)
    (h : e.buffer.length < MAX_LINES) (hp : position.val < 0) :
    (e.insertLine position text).error = some EditorError.lengthError
      ∧ (e.insertLine position text).editor.undoStack = e.undoStack
      ∧ (e.insertLine position text).editor.redoStack = e.redoStack
      ∧ ∃ k, (e.insertLine position text).editor.buffer = e.buffer ++ List.replicate k [] := by
  obtain ⟨hmax, hbig⟩ := CInt.toSize_of_neg position hp
  have hlen : e.buffer.length < position.toSize := by
    unfold MAX_LINES at h
    omega
  obtain ⟨ht, k, hk⟩ := padLoop_threw position.toSize e.buffer position.toSize hmax hlen (by omega)
  unfold insertLine
  rw [if_neg (by omega)]
  rw [if_pos ht]
  exact ⟨rfl, rfl, rfl, k, hk⟩

/-- After `insertLine(0, "a")` and `undo`, the call `insertLine(-1, "x")` ends
in the exception of `push_back` and keeps the snapshot on the redo stack. -/
theorem insertLine_negative_keeps_redo :
    (oneUndone.insertLine (CInt.ofInt (-1)) ['x']).error = some EditorError.lengthError
      ∧ (oneUndone.insertLine (CInt.ofInt (-1)) ['x']).editor.undoStack = []
      ∧ (oneUndone.insertLine (CInt.ofInt (-1)) ['x']).editor.redoStack = [⟨[['a']], 'U'⟩] := by
  obtain ⟨h1, h2, h3, _⟩ :=
    insertLine_of_neg oneUndone (CInt.ofInt (-1)) ['x'] (by decide) (by decide)
  exact ⟨h1, h2, h3⟩

/-- A call that does not reach `saveBufferState` and is not `undo` or `redo`
leaves both stacks as they were, and the whole editor unless it is an
`insertLine`. -/
theorem run_of_not_takesSnapshot (op : Op) (e : LineEditor) (hm : op.isMutating = true)
    (h : op.takesSnapshot e = false) :
    (op.run e).editor.undoStack = e.undoStack
      ∧ (op.run e).editor.redoStack = e.redoStack
      ∧ ((∀ position text, op ≠ Op.insertLine position text) → (op.run e).editor = e) := by
  have hall : (op.run e).editor = e →
      (op.run e).editor.undoStack = e.undoStack
        ∧ (op.run e).editor.redoStack = e.redoStack
        ∧ ((∀ position text, op ≠ Op.insertLine position text) → (op.run e).editor = e) := by
    intro heq
    exact ⟨by rw [heq], by rw [heq], fun _ => heq⟩
  cases op with
  | insertLine position text =>
    by_cases hge : e.buffer.length ≥ MAX_LINES
    · apply hall
      simp [Op.run, insertLine, hge]
    · have hneg : position.val < 0 := by
        have h2 : ¬ (e.buffer.length < MAX_LINES ∧ 0 ≤ position.val) := by
          simpa [Op.takesSnapshot] using h
        omega
      obtain ⟨_, hu, hr, _⟩ := insertLine_of_neg e position text (by omega) hneg
      exact ⟨hu, hr, fun hne => absurd rfl (hne position text)⟩
  | insertWord cursor word =>
    have hr : e.lineInRange cursor.lineNumber = false := h
    apply hall
    simp [Op.run, insertWord, hr]
  | searchWord word => exact hall rfl
  | updateWord cursor oldWord newWord =>
    have hr : e.lineInRange cursor.lineNumber = false := h
    apply hall
    simp [Op.run, updateWord, hr]
  | updateLine lineNumber startPos newText =>
    have hr : lineNumber.val < 0 ∨ lineNumber.toSize ≥ e.buffer.length := by
      have h2 : e.lineInRange lineNumber = false := h
      simp only [lineInRange, Bool.and_eq_false_iff, decide_eq_false_iff_not] at h2
      omega
    apply hall
    simp [Op.run, updateLine, hr]
  | deleteLine lineNumber =>
    have hr : lineNumber.val < 0 ∨ lineNumber.toSize ≥ e.buffer.length := by
      have h2 : e.lineInRange lineNumber = false := h
      simp only [lineInRange, Bool.and_eq_false_iff, decide_eq_false_iff_not] at h2
      omega
    apply hall
    simp [Op.run, deleteLine, hr]
  | deleteWord cursor word =>
    have hr : e.lineInRange cursor.lineNumber = false := h
    apply hall
    simp [Op.run, deleteWord, hr]
  | undo => simp [Op.isMutating] at hm
  | redo => simp [Op.isMutating] at hm

/-- Undo followed by redo gives the buffer back, when there is something to undo. -/
theorem undo_redo_buffer (e : LineEditor) (h : e.undoStack ≠ []) :
    e.undo.editor.redo.editor.buffer = e.buffer := by
  cases hu : e.undoStack with
  | nil => exact absurd hu h
  | cons top rest => simp [undo, redo, hu]

theorem reachableVia_runAll (allowed : Op → LineEditor → Prop) (ops : List Op)
    (e : LineEditor) (he : ReachableVia allowed e)
    (hall : ∀ op e, allowed op e) : ReachableVia allowed (runAll ops e) := by
  induction ops generalizing e with
  | nil => exact he
  | cons op rest ih => exact ih _ (ReachableVia.step e op he (hall op e))

theorem reachable_runAll (ops : List Op) : Reachable (runAll ops LineEditor.new) :=
  reachableVia_runAll _ ops _ ReachableVia.fresh (fun _ _ => trivial)

end MainCpp

namespace MainCpp

open LineEditor

/-! ## Undo and redo around one operation -/

/-- C1, as stated, fails on the code in three ways.  (1) A word level operation
whose cursor line is out of range returns without error and without a snapshot,
so the following `undo` reverts an earlier edit: on the buffer `a` reached by
one `insertLine`, `insertWord` at the cursor `(-1, -1)` followed by `undo`
leaves the empty buffer.  (2) With three snapshots on the undo stack the new
snapshot is the one popped: after three inserts, `insertLine(3, "d")` followed
by `undo` leaves `a`, `b` and not `a`, `b`, `c`.  (3) `insertLine` pads before
it takes the snapshot: on the fresh editor `insertLine(5, "x")` followed by
`undo` leaves five empty lines. -/
theorem undo_after_mutation_counterexample :
    (Reachable oneLine
      ∧ (Op.insertWord Cursor.default ['x']).isMutating = true
      ∧ ((Op.insertWord Cursor.default ['x']).run oneLine).error = none
      ∧ ((Op.insertWord Cursor.default ['x']).run oneLine).editor.undo.editor.buffer
          ≠ oneLine.buffer)
    ∧ (Reachable threeLines
      ∧ (Op.insertLine (CInt.ofInt 3) ['d']).isMutating = true
      ∧ ((Op.insertLine (CInt.ofInt 3) ['d']).run threeLines).error = none
      ∧ threeLines.buffer = [['a'], ['b'], ['c']]
      ∧ ((Op.insertLine (CInt.ofInt 3) ['d']).run threeLines).editor.undo.editor.buffer
          = [['a'], ['b']])
    ∧ (Reachable LineEditor.new
      ∧ (Op.insertLine (CInt.ofInt 5) ['x']).isMutating = true
      ∧ ((Op.insertLine (CInt.ofInt 5) ['x']).run LineEditor.new).error = none
      ∧ LineEditor.new.buffer = []
      ∧ ((Op.insertLine (CInt.ofInt 5) ['x']).run LineEditor.new).editor.undo.editor.buffer
          = [[], [], [], [], []]) :=
  ⟨⟨reachable_runAll _, by decide, by decide, by decide⟩,
    ⟨reachable_runAll _, by decide, by decide, by decide, by decide⟩,
    ⟨ReachableVia.fresh, by decide, by decide, by decide, by decide⟩⟩

/-- C1, amended: for every editor whose undo stack holds fewer than
`UNDO_LIMIT` snapshots and every operation that takes a snapshot on it
(`insertLine` on a buffer that is not full, `updateLine` and `deleteLine` with a
valid line number, a word level operation with the cursor line in range) and
does no padding, `undo` right after the operation makes the buffer equal to the
line sequence from before the operation. -/
theorem undo_after_mutation_restores (e : LineEditor) (op : Op)
    (hlim : e.undoStack.length < UNDO_LIMIT)
    (hsnap : op.takesSnapshot e = true)
    (hpad : op.pads e = false) :
    (op.run e).editor.undo.editor.buffer = e.buffer := by
  obtain ⟨b, tag, hu, _, hb⟩ := run_of_takesSnapshot op e hsnap
  rw [popWhileOver_of_le _ (by simpa using hlim)] at hu
  simp [undo, hu, hb hpad]

theorem undo_after_mutation_restores_witness :
    oneLine.undoStack.length < UNDO_LIMIT
      ∧ (Op.deleteLine (CInt.ofInt 0)).takesSnapshot oneLine = true
      ∧ ((Op.deleteLine (CInt.ofInt 0)).run oneLine).editor.buffer = []
      ∧ ((Op.deleteLine (CInt.ofInt 0)).run oneLine).editor.undo.editor.buffer = [['a']] :=
  ⟨by decide, by decide, by decide,
    undo_after_mutation_restores oneLine (Op.deleteLine (CInt.ofInt 0))
      (by decide) (by decide) (by decide)⟩

/-- C2, as stated, fails on the code: on the editor reached by
`insertLine(0, "a")` and `undo` (empty undo stack, one snapshot on the redo
stack), `insertWord` at the cursor `(-1, -1)` returns without error and leaves
the empty buffer; `undo` then has nothing to undo, and `redo` brings back the
line `a`, which is not the buffer left by the operation. -/
theorem mutate_undo_redo_counterexample :
    (Op.insertWord Cursor.default ['x']).isMutating = true
      ∧ ((Op.insertWord Cursor.default ['x']).run oneUndone).error = none
      ∧ ((Op.insertWord Cursor.default ['x']).run oneUndone).editor.buffer = []
      ∧ ((Op.insertWord Cursor.default ['x']).run oneUndone).editor.undo.editor.redo.editor.buffer
          = [['a']] :=
  ⟨by decide, by decide, by decide, by decide⟩

/-- C2, amended: for every editor and every operation that takes a snapshot on
it (`insertLine` with a position that is not negative on a buffer that is not
full, `updateLine` and `deleteLine` with a valid line number, a word level
operation with the cursor line in range), the operation followed by `undo` and
`redo` leaves the buffer as it was right after the operation. -/
theorem mutate_undo_redo_roundtrip (e : LineEditor) (op : Op)
    (hsnap : op.takesSnapshot e = true) :
    (op.run e).editor.undo.editor.redo.editor.buffer = (op.run e).editor.buffer := by
  obtain ⟨b, tag, hu, _, _⟩ := run_of_takesSnapshot op e hsnap
  apply undo_redo_buffer
  rw [hu]
  exact popWhileOver_ne_nil _ _

theorem mutate_undo_redo_roundtrip_witness :
    (Op.insertLine (CInt.ofInt 3) ['d']).takesSnapshot threeLines = true
      ∧ ((Op.insertLine (CInt.ofInt 3) ['d']).run threeLines).editor.buffer
          = [['a'], ['b'], ['c'], ['d']]
      ∧ ((Op.insertLine (CInt.ofInt 3) ['d']).run threeLines).editor.undo.editor.buffer
          = [['a'], ['b']]
      ∧ ((Op.insertLine (CInt.ofInt 3) ['d']).run threeLines).editor.undo.editor.redo.editor.buffer
          = ((Op.insertLine (CInt.ofInt 3) ['d']).run threeLines).editor.buffer :=
  ⟨by decide, by decide, by decide,
    mutate_undo_redo_roundtrip threeLines (Op.insertLine (CInt.ofInt 3) ['d']) (by decide)⟩

/-- C3: after `undo` followed by an operation that takes a snapshot
(`insertLine` with a position that is not negative on a buffer that is not
full, `updateLine` and `deleteLine` with a valid line number, a word level
operation with the cursor line in range), the redo stack is empty, and a
following `redo` writes "Nothing to redo" and leaves the buffer and both stacks
as they were. -/
theorem redo_after_new_edit (e : LineEditor) (op : Op)
    (hsnap : op.takesSnapshot e.undo.editor = true) :
    (op.run e.undo.editor).editor.redoStack = []
      ∧ (op.run e.undo.editor).editor.redo.out = "Nothing to redo\n"
      ∧ (op.run e.undo.editor).editor.redo.error = none
      ∧ (op.run e.undo.editor).editor.redo.editor = (op.run e.undo.editor).editor := by
  obtain ⟨b, tag, _, hr, _⟩ := run_of_takesSnapshot op e.undo.editor hsnap
  simp [redo, hr]

theorem redo_after_new_edit_witness :
    oneLine.undo.editor.redoStack = [⟨[['a']], 'U'⟩]
      ∧ (Op.insertLine (CInt.ofInt 0) ['b']).takesSnapshot oneLine.undo.editor = true
      ∧ ((Op.insertLine (CInt.ofInt 0) ['b']).run oneLine.undo.editor).error = none
      ∧ (((Op.insertLine (CInt.ofInt 0) ['b']).run oneLine.undo.editor).editor.redoStack = []
        ∧ ((Op.insertLine (CInt.ofInt 0) ['b']).run oneLine.undo.editor).editor.redo.out
            = "Nothing to redo\n"
        ∧ ((Op.insertLine (CInt.ofInt 0) ['b']).run oneLine.undo.editor).editor.redo.error = none
        ∧ ((Op.insertLine (CInt.ofInt 0) ['b']).run oneLine.undo.editor).editor.redo.editor
            = ((Op.insertLine (CInt.ofInt 0) ['b']).run oneLine.undo.editor).editor) :=
  ⟨by decide, by decide, by decide,
    redo_after_new_edit oneLine (Op.insertLine (CInt.ofInt 0) ['b']) (by decide)⟩

end MainCpp

namespace MainCpp

open LineEditor

/-! ## The depth of the history -/

/-- On a full undo stack `saveBufferState` changes nothing: the snapshot it
pushes is the one its loop pops. -/
theorem saveBufferState_of_full (e : LineEditor) (tag : Char)
    (h : e.undoStack.length = UNDO_LIMIT) :
    (e.saveBufferState tag).undoStack = e.undoStack := by
  unfold saveBufferState popWhileOver
  rw [if_pos (by simp [h]), popWhileOver_of_le _ (by omega)]

theorem historyBounded_step (op : Op) (e : LineEditor) (h : historyBounded e) :
    historyBounded (op.run e).editor := by
  unfold historyBounded at *
  cases hs : op.takesSnapshot e with
  | true =>
    obtain ⟨b, tag, hu, hr, _⟩ := run_of_takesSnapshot op e hs
    rw [hu, hr]
    simpa using popWhileOver_length_le _
  | false =>
    cases hm : op.isMutating with
    | true =>
      obtain ⟨hu, hr, _⟩ := run_of_not_takesSnapshot op e hm hs
      rw [hu, hr]
      exact h
    | false =>
      cases op with
      | searchWord word => exact h
      | undo =>
        cases hu : e.undoStack with
        | nil => simpa [Op.run, undo, hu] using h
        | cons top rest =>
          rw [hu] at h
          simp only [Op.run, undo, hu, List.length_cons] at h ⊢
          omega
      | redo =>
        cases hr : e.redoStack with
        | nil => simpa [Op.run, redo, hr] using h
        | cons top rest =>
          rw [hr] at h
          simp only [Op.run, redo, hr, List.length_cons] at h ⊢
          omega
      | insertLine _ _ => simp [Op.isMutating] at hm
      | insertWord _ _ => simp [Op.isMutating] at hm
      | updateWord _ _ _ => simp [Op.isMutating] at hm
      | updateLine _ _ _ => simp [Op.isMutating] at hm
      | deleteLine _ => simp [Op.isMutating] at hm
      | deleteWord _ _ => simp [Op.isMutating] at hm

theorem historyBounded_of_reachableVia (allowed : Op → LineEditor → Prop) (e : LineEditor)
    (h : ReachableVia allowed e) : historyBounded e := by
  induction h with
  | fresh => simp [historyBounded, LineEditor.new]
  | step e op _ _ ih => exact historyBounded_step op e ih

/-- C4 fails on the code.  After three inserts the undo stack holds, oldest
first, the snapshots `[]`, `[a]`, `[a, b]` and the buffer is `a`, `b`, `c`.
`insertLine(3, "d")` returns without error, and the undo stack afterwards is
again `[]`, `[a]`, `[a, b]`: the snapshot `[a, b, c]` that was pushed is the one
removed, and the oldest entry is kept. -/
theorem undo_limit_drops_newest :
    threeLines.buffer = [['a'], ['b'], ['c']]
      ∧ threeLines.undoStack.reverse = [⟨[], 'I'⟩, ⟨[['a']], 'I'⟩, ⟨[['a'], ['b']], 'I'⟩]
      ∧ (threeLines.insertLine (CInt.ofInt 3) ['d']).error = none
      ∧ (threeLines.insertLine (CInt.ofInt 3) ['d']).editor.undoStack.reverse
          = [⟨[], 'I'⟩, ⟨[['a']], 'I'⟩, ⟨[['a'], ['b']], 'I'⟩]
      ∧ (threeLines.saveBufferState 'I').undoStack = threeLines.undoStack := by
  decide

/-- C5: in every state reachable from the fresh editor by any sequence of
calls, the undo stack holds at most `UNDO_LIMIT` snapshots. -/
theorem undoStack_length_le (e : LineEditor) (h : Reachable e) :
    e.undoStack.length ≤ UNDO_LIMIT := by
  have hb := historyBounded_of_reachableVia _ e h
  unfold historyBounded at hb
  omega

theorem undoStack_length_le_witness :
    Reachable threeUndoRedo ∧ threeUndoRedo.undoStack.length = 3
      ∧ threeUndoRedo.undoStack.length ≤ UNDO_LIMIT :=
  ⟨reachable_runAll _, by decide, undoStack_length_le threeUndoRedo (reachable_runAll _)⟩

end MainCpp

namespace MainCpp

open LineEditor

/-! ## `insertLine` -/

theorem insertLine_of_full (e : LineEditor) (position : CInt) (text : Line)
    (h : MAX_LINES ≤ e.buffer.length) :
    e.insertLine position text = ⟨e, "", some EditorError.bufferFull⟩ := by
  unfold insertLine
  rw [if_pos h]

theorem insertLine_error (e : LineEditor) (position : CInt) (text : Line)
    (h : e.buffer.length < MAX_LINES) (hp : 0 ≤ position.val) :
    (e.insertLine position text).error = none := by
  unfold insertLine
  rw [if_neg (by omega), padLoop_self _ _ (CInt.toSize_le_vectorMaxSize position hp)]
  simp

theorem insertLine_error_ne_bufferFull (e : LineEditor) (position : CInt) (text : Line)
    (h : e.buffer.length < MAX_LINES) :
    (e.insertLine position text).error ≠ some EditorError.bufferFull := by
  by_cases hp : 0 ≤ position.val
  · rw [insertLine_error e position text h hp]
    simp
  · rw [(insertLine_of_neg e position text h (by omega)).1]
    simp

theorem insertLine_undoStack (e : LineEditor) (position : CInt) (text : Line)
    (h : e.buffer.length < MAX_LINES) (hp : 0 ≤ position.val) :
    (e.insertLine position text).editor.undoStack
      = popWhileOver (⟨e.buffer ++ List.replicate (position.toSize - e.buffer.length) [], 'I'⟩
          :: e.undoStack) := by
  unfold insertLine
  rw [if_neg (by omega), padLoop_self _ _ (CInt.toSize_le_vectorMaxSize position hp)]
  simp [saveBufferState]

theorem insertLine_redoStack (e : LineEditor) (position : CInt) (text : Line)
    (h : e.buffer.length < MAX_LINES) (hp : 0 ≤ position.val) :
    (e.insertLine position text).editor.redoStack = [] := by
  unfold insertLine
  rw [if_neg (by omega), padLoop_self _ _ (CInt.toSize_le_vectorMaxSize position hp)]
  simp [saveBufferState]

theorem insertLine_buffer_eq (e : LineEditor) (position : CInt) (text : Line)
    (h : e.buffer.length < MAX_LINES) (hp : 0 ≤ position.val) :
    (e.insertLine position text).editor.buffer
      = if position.toSize ≤ e.buffer.length then
          e.buffer.take position.toSize ++ [text] ++ e.buffer.drop position.toSize
        else
          e.buffer ++ List.replicate (position.toSize - e.buffer.length) [] ++ [text] := by
  unfold insertLine
  rw [if_neg (by omega), padLoop_self _ _ (CInt.toSize_le_vectorMaxSize position hp)]
  simp only [saveBufferState, Bool.false_eq_true, if_false]
  by_cases hle : position.toSize ≤ e.buffer.length
  · have h0 : position.toSize - e.buffer.length = 0 := by omega
    rw [if_pos hle, h0]
    simp only [List.replicate_zero, List.append_nil]
    by_cases heq : position.toSize = e.buffer.length
    · rw [if_pos heq, heq]
      simp
    · rw [if_neg heq, vectorInsert_eq _ _ _ hle]
  · rw [if_neg hle]
    have hl : (e.buffer ++ List.replicate (position.toSize - e.buffer.length) ([] : Line)).length
        = position.toSize := by
      simp
      omega
    rw [if_pos hl.symm]

/-! ## The number of lines -/

theorem snapshotsBounded_cons (s : BufferState) (stack : List BufferState)
    (hs : s.lines.length ≤ MAX_LINES) (h : snapshotsBounded stack) :
    snapshotsBounded (s :: stack) := by
  intro x hx
  rcases List.mem_cons.1 hx with rfl | hx
  · exact hs
  · exact h x hx

theorem snapshotsBounded_popWhileOver (stack : List BufferState) (h : snapshotsBounded stack) :
    snapshotsBounded (popWhileOver stack) :=
  fun s hs => h s (popWhileOver_subset stack s hs)

theorem snapshotsBounded_nil : snapshotsBounded [] := by
  intro s hs
  simp at hs

/-- The operations other than `insertLine`, `undo` and `redo` never make the
buffer longer. -/
theorem run_buffer_length_le (op : Op) (e : LineEditor) (hm : op.isMutating = true)
    (hp : ∀ position text, op ≠ Op.insertLine position text) :
    (op.run e).editor.buffer.length ≤ e.buffer.length := by
  cases op with
  | insertLine position text => exact absurd rfl (hp position text)
  | insertWord cursor word =>
    simp only [Op.run, insertWord]
    split
    · split <;> simp [saveBufferState, vectorSet]
    · exact Nat.le_refl _
  | searchWord word => exact Nat.le_refl _
  | updateWord cursor oldWord newWord =>
    simp only [Op.run, updateWord]
    split
    · split <;> simp [saveBufferState, vectorSet]
    · exact Nat.le_refl _
  | updateLine lineNumber startPos newText =>
    simp only [Op.run, updateLine]
    split
    · exact Nat.le_refl _
    · split <;> simp [saveBufferState, vectorSet]
  | deleteLine lineNumber =>
    simp only [Op.run, deleteLine]
    split
    · exact Nat.le_refl _
    · simpa [saveBufferState] using vectorErase_length_le _ _
  | deleteWord cursor word =>
    simp only [Op.run, deleteWord]
    split
    · split <;> simp [saveBufferState, vectorSet]
    · exact Nat.le_refl _
  | undo => simp [Op.isMutating] at hm
  | redo => simp [Op.isMutating] at hm

theorem linesBounded_of_not_insertLine (op : Op) (e : LineEditor) (hm : op.isMutating = true)
    (hp : ∀ position text, op ≠ Op.insertLine position text) (h : linesBounded e) :
    linesBounded (op.run e).editor := by
  obtain ⟨hb, hu, hr⟩ := h
  cases hs : op.takesSnapshot e with
  | true =>
    obtain ⟨b, tag, hu2, hr2, hb2⟩ := run_of_takesSnapshot op e hs
    have hpad : op.pads e = false := by
      cases op with
      | insertLine position text => exact absurd rfl (hp position text)
      | _ => rfl
    refine ⟨Nat.le_trans (run_buffer_length_le op e hm hp) hb, ?_, ?_⟩
    · rw [hu2]
      apply snapshotsBounded_popWhileOver
      apply snapshotsBounded_cons _ _ _ hu
      rw [hb2 hpad]
      exact hb
    · rw [hr2]
      exact snapshotsBounded_nil
  | false =>
    rw [(run_of_not_takesSnapshot op e hm hs).2.2 hp]
    exact ⟨hb, hu, hr⟩

/-- With `insertLine` positions in `0..24`, a call keeps the buffer and every
snapshot within `MAX_LINES` lines, whether it returns or throws. -/
theorem linesBounded_step (op : Op) (e : LineEditor) (hs : op.shellRange)
    (h : linesBounded e) : linesBounded (op.run e).editor := by
  cases op with
  | insertLine position text =>
    obtain ⟨hb, hu, hr⟩ := h
    by_cases hfull : MAX_LINES ≤ e.buffer.length
    · simp only [Op.run, insertLine_of_full e position text hfull]
      exact ⟨hb, hu, hr⟩
    · have hlt : e.buffer.length < MAX_LINES := by omega
      have hpos : 0 ≤ position.val ∧ position.val ≤ 24 := hs
      have hsz : position.toSize ≤ 24 := by
        rw [CInt.toSize_of_nonneg _ hpos.1]
        omega
      have hlt2 : e.buffer.length < 25 := hlt
      refine ⟨?_, ?_, ?_⟩
      · simp only [Op.run]
        rw [insertLine_buffer_eq e position text hlt hpos.1]
        split
        · simp [MAX_LINES]
          omega
        · simp [MAX_LINES]
          omega
      · simp only [Op.run]
        rw [insertLine_undoStack e position text hlt hpos.1]
        apply snapshotsBounded_popWhileOver
        apply snapshotsBounded_cons _ _ _ hu
        simp [MAX_LINES]
        omega
      · simp only [Op.run]
        rw [insertLine_redoStack e position text hlt hpos.1]
        exact snapshotsBounded_nil
  | undo =>
    obtain ⟨hb, hu, hr⟩ := h
    cases hst : e.undoStack with
    | nil =>
      have hrun : (Op.undo.run e).editor = e := by simp [Op.run, undo, hst]
      rw [hrun]
      exact ⟨hb, hu, hr⟩
    | cons top rest =>
      rw [hst] at hu
      simp only [Op.run, undo, hst]
      exact ⟨hu top (List.mem_cons_self _ _), fun s hs => hu s (List.mem_cons_of_mem _ hs),
        snapshotsBounded_cons _ _ hb hr⟩
  | redo =>
    obtain ⟨hb, hu, hr⟩ := h
    cases hst : e.redoStack with
    | nil =>
      have hrun : (Op.redo.run e).editor = e := by simp [Op.run, redo, hst]
      rw [hrun]
      exact ⟨hb, hu, hr⟩
    | cons top rest =>
      rw [hst] at hr
      simp only [Op.run, redo, hst]
      exact ⟨hr top (List.mem_cons_self _ _), snapshotsBounded_cons _ _ hb hu,
        fun s hs => hr s (List.mem_cons_of_mem _ hs)⟩
  | searchWord word => exact h
  | insertWord cursor word =>
    exact linesBounded_of_not_insertLine _ e rfl (fun _ _ hc => Op.noConfusion hc) h
  | updateWord cursor oldWord newWord =>
    exact linesBounded_of_not_insertLine _ e rfl (fun _ _ hc => Op.noConfusion hc) h
  | updateLine lineNumber startPos newText =>
    exact linesBounded_of_not_insertLine _ e rfl (fun _ _ hc => Op.noConfusion hc) h
  | deleteLine lineNumber =>
    exact linesBounded_of_not_insertLine _ e rfl (fun _ _ hc => Op.noConfusion hc) h
  | deleteWord cursor word =>
    exact linesBounded_of_not_insertLine _ e rfl (fun _ _ hc => Op.noConfusion hc) h

theorem linesBounded_of_reachableVia (allowed : Op → LineEditor → Prop)
    (hallowed : ∀ op e, allowed op e → op.shellRange) (e : LineEditor)
    (h : ReachableVia allowed e) : linesBounded e := by
  induction h with
  | fresh =>
    exact ⟨by simp [LineEditor.new], snapshotsBounded_nil, snapshotsBounded_nil⟩
  | step e op _ hop ih => exact linesBounded_step op e (hallowed op e hop) ih

end MainCpp

namespace MainCpp

open LineEditor

/-! ## Capacity, failure and the effect of `insertLine` -/

/-- C6, as stated, fails on the code: `insertLine(25, "x")` on the fresh editor
returns without error and leaves 26 lines, 25 empty ones followed by `x`. -/
theorem buffer_length_counterexample :
    ReachableVia successfulNonneg (LineEditor.new.insertLine (CInt.ofInt 25) ['x']).editor
      ∧ (LineEditor.new.insertLine (CInt.ofInt 25) ['x']).error = none
      ∧ (LineEditor.new.insertLine (CInt.ofInt 25) ['x']).editor.buffer.length = 26
      ∧ ¬ (LineEditor.new.insertLine (CInt.ofInt 25) ['x']).editor.buffer.length ≤ MAX_LINES :=
  ⟨ReachableVia.step LineEditor.new (Op.insertLine (CInt.ofInt 25) ['x']) ReachableVia.fresh
      ⟨by decide, (by decide : (0 : Int) ≤ (CInt.ofInt 25).val)⟩,
    by decide, by decide, by decide⟩

/-- C6, amended: in every state reachable from the fresh editor by calls that
return without error, with every `insertLine` position in `0..24`, the buffer
has at most `MAX_LINES` lines. -/
theorem buffer_length_le (e : LineEditor) (h : ReachableVia successfulShell e) :
    e.buffer.length ≤ MAX_LINES :=
  (linesBounded_of_reachableVia successfulShell (fun _ _ hop => hop.2) e h).1

theorem buffer_length_le_witness :
    ReachableVia successfulShell (LineEditor.new.insertLine (CInt.ofInt 24) ['x']).editor
      ∧ (LineEditor.new.insertLine (CInt.ofInt 24) ['x']).editor.buffer.length = 25
      ∧ (LineEditor.new.insertLine (CInt.ofInt 24) ['x']).editor.buffer.length ≤ MAX_LINES :=
  ⟨ReachableVia.step LineEditor.new (Op.insertLine (CInt.ofInt 24) ['x']) ReachableVia.fresh
      ⟨by decide, (by decide : (0 : Int) ≤ (CInt.ofInt 24).val ∧ (CInt.ofInt 24).val ≤ 24)⟩,
    by decide,
    buffer_length_le _
      (ReachableVia.step LineEditor.new (Op.insertLine (CInt.ofInt 24) ['x']) ReachableVia.fresh
        ⟨by decide, (by decide : (0 : Int) ≤ (CInt.ofInt 24).val ∧ (CInt.ofInt 24).val ≤ 24)⟩)⟩

/-- C7 fails on the code for `insertWord`.  On the editor with buffer `a`, one
snapshot on the undo stack and one on the redo stack, `insertWord` at the
cursor `(0, 5)` ends in the out-of-range error of the string insert, and by
then `saveBufferState` has run: the undo stack has a second snapshot and the
redo stack is empty.  Only the buffer is as before. -/
theorem insertWord_error_changes_history :
    twoThenUndo.buffer = [['a']]
      ∧ twoThenUndo.undoStack = [⟨[], 'I'⟩]
      ∧ twoThenUndo.redoStack = [⟨[['a'], ['b']], 'U'⟩]
      ∧ (twoThenUndo.insertWord ⟨CInt.ofInt 0, CInt.ofInt 5⟩ ['x']).error
          = some EditorError.stringOutOfRange
      ∧ (twoThenUndo.insertWord ⟨CInt.ofInt 0, CInt.ofInt 5⟩ ['x']).editor.buffer = [['a']]
      ∧ (twoThenUndo.insertWord ⟨CInt.ofInt 0, CInt.ofInt 5⟩ ['x']).editor.undoStack
          = [⟨[['a']], 'U'⟩, ⟨[], 'I'⟩]
      ∧ (twoThenUndo.insertWord ⟨CInt.ofInt 0, CInt.ofInt 5⟩ ['x']).editor.redoStack = [] := by
  decide

/-- C8 fails on the code when `insertLine` pads: the snapshot is taken after
the padding loop.  After `insertLine(5, "x")` on the fresh editor the snapshot
on top of the undo stack is tagged `'I'` and holds five empty lines, not the
empty line sequence the buffer had before the call. -/
theorem insertLine_snapshot_holds_padding :
    LineEditor.new.buffer = []
      ∧ (LineEditor.new.insertLine (CInt.ofInt 5) ['x']).editor.undoStack.head?
          = some ⟨[[], [], [], [], []], 'I'⟩ := by
  decide

/-- C9: on a buffer `b` with fewer than `MAX_LINES` lines and for a position
`p ≥ 0`, `insertLine(p, t)` returns without error and leaves, if
`p ≤ len(b)`, the first `p` lines of `b`, then `t`, then the other lines of `b`
(`len(b) + 1` lines), and if `p > len(b)`, `b` followed by `p - len(b)` empty
lines followed by `t` (`p + 1` lines). -/
theorem insertLine_buffer (e : LineEditor) (p : CInt) (t : Line)
    (hlen : e.buffer.length < MAX_LINES) (hp : 0 ≤ p.val) :
    (e.insertLine p t).error = none
      ∧ (p.val.toNat ≤ e.buffer.length →
          (e.insertLine p t).editor.buffer
              = e.buffer.take p.val.toNat ++ [t] ++ e.buffer.drop p.val.toNat
            ∧ (e.insertLine p t).editor.buffer.length = e.buffer.length + 1)
      ∧ (e.buffer.length < p.val.toNat →
          (e.insertLine p t).editor.buffer
              = e.buffer ++ List.replicate (p.val.toNat - e.buffer.length) [] ++ [t]
            ∧ (e.insertLine p t).editor.buffer.length = p.val.toNat + 1) := by
  have hb := insertLine_buffer_eq e p t hlen hp
  rw [CInt.toSize_of_nonneg p hp] at hb
  refine ⟨insertLine_error e p t hlen hp, ?_, ?_⟩
  · intro hle
    rw [if_pos hle] at hb
    refine ⟨hb, ?_⟩
    rw [hb]
    simp
    omega
  · intro hgt
    rw [if_neg (by omega)] at hb
    refine ⟨hb, ?_⟩
    rw [hb]
    simp
    omega

theorem insertLine_buffer_witness :
    LineEditor.new.buffer.length < MAX_LINES
      ∧ 0 ≤ (CInt.ofInt 5).val
      ∧ (CInt.ofInt 5).val.toNat = 5
      ∧ (LineEditor.new.insertLine (CInt.ofInt 5) ['x']).editor.buffer
          = [[], [], [], [], [], ['x']]
      ∧ (LineEditor.new.buffer.length < (CInt.ofInt 5).val.toNat →
          (LineEditor.new.insertLine (CInt.ofInt 5) ['x']).editor.buffer
              = LineEditor.new.buffer
                ++ List.replicate ((CInt.ofInt 5).val.toNat - LineEditor.new.buffer.length) []
                ++ [['x']]
            ∧ (LineEditor.new.insertLine (CInt.ofInt 5) ['x']).editor.buffer.length
                = (CInt.ofInt 5).val.toNat + 1) :=
  ⟨by decide, by decide, by decide, by decide,
    (insertLine_buffer LineEditor.new (CInt.ofInt 5) ['x'] (by decide) (by decide)).2.2⟩

/-- C10: `insertLine` ends in the capacity error exactly when the buffer holds
`MAX_LINES` or more lines on entry, whatever the position; and when it does,
the buffer and both stacks are as before the call. -/
theorem insertLine_fails_iff (e : LineEditor) (position : CInt) (text : Line) :
    ((e.insertLine position text).error = some EditorError.bufferFull
        ↔ MAX_LINES ≤ e.buffer.length)
      ∧ ((e.insertLine position text).error = some EditorError.bufferFull
        → (e.insertLine position text).editor = e) := by
  by_cases hfull : MAX_LINES ≤ e.buffer.length
  · rw [insertLine_of_full e position text hfull]
    simp [hfull]
  · have herr := insertLine_error_ne_bufferFull e position text (by omega)
    simp [herr, hfull]

theorem insertLine_fails_iff_witness :
    fullBuffer.buffer.length = 25
      ∧ fullBuffer.redoStack ≠ []
      ∧ (fullBuffer.insertLine (CInt.ofInt 30) ['x']).error = some EditorError.bufferFull
      ∧ (fullBuffer.insertLine (CInt.ofInt 30) ['x']).editor = fullBuffer :=
  ⟨by decide, by decide,
    (insertLine_fails_iff fullBuffer (CInt.ofInt 30) ['x']).1.2 (by decide),
    (insertLine_fails_iff fullBuffer (CInt.ofInt 30) ['x']).2
      ((insertLine_fails_iff fullBuffer (CInt.ofInt 30) ['x']).1.2 (by decide))⟩

end MainCpp

namespace MainCpp

open LineEditor

/-! ## Line numbers and cursors out of range -/

theorem lineInRange_eq_false_iff (e : LineEditor) (lineNumber : CInt) :
    e.lineInRange lineNumber = false ↔ lineOutOfRange e lineNumber := by
  unfold lineInRange lineOutOfRange
  by_cases h : 0 ≤ lineNumber.val
  · have ht := CInt.toSize_of_nonneg lineNumber h
    simp only [h, decide_True, Bool.true_and, decide_eq_false_iff_not, ht]
    omega
  · simp only [h, decide_False, Bool.false_and, true_iff]
    omega

theorem lineCheck_iff (e : LineEditor) (lineNumber : CInt) :
    (lineNumber.val < 0 ∨ lineNumber.toSize ≥ e.buffer.length) ↔ lineOutOfRange e lineNumber := by
  unfold lineOutOfRange
  by_cases h : 0 ≤ lineNumber.val
  · rw [CInt.toSize_of_nonneg lineNumber h]
    omega
  · constructor <;> intro _ <;> left <;> omega

/-- C11: `updateLine` and `deleteLine` end in the invalid-line-number error
exactly when `lineNumber < 0` or `lineNumber >= len(buffer)`, and when they do,
the buffer and both stacks are as before the call. -/
theorem updateLine_deleteLine_fail_iff (e : LineEditor) (lineNumber startPos : CInt)
    (newText : Line) :
    ((e.updateLine lineNumber startPos newText).error = some EditorError.invalidLineNumber
        ↔ lineOutOfRange e lineNumber)
      ∧ ((e.updateLine lineNumber startPos newText).error ≠ none
        ↔ lineOutOfRange e lineNumber)
      ∧ (lineOutOfRange e lineNumber → (e.updateLine lineNumber startPos newText).editor = e)
      ∧ ((e.deleteLine lineNumber).error = some EditorError.invalidLineNumber
        ↔ lineOutOfRange e lineNumber)
      ∧ ((e.deleteLine lineNumber).error ≠ none ↔ lineOutOfRange e lineNumber)
      ∧ (lineOutOfRange e lineNumber → (e.deleteLine lineNumber).editor = e) := by
  have hc := lineCheck_iff e lineNumber
  by_cases h : lineOutOfRange e lineNumber
  · have h2 := hc.2 h
    simp only [updateLine, deleteLine, if_pos h2, h]
    simp
  · have h2 : ¬ (lineNumber.val < 0 ∨ lineNumber.toSize ≥ e.buffer.length) := fun h3 => h (hc.1 h3)
    refine ⟨?_, ?_, fun h3 => absurd h3 h, ?_, ?_, fun h3 => absurd h3 h⟩
    · simp only [updateLine, if_neg h2, h, iff_false]
      split <;> simp
    · simp only [updateLine, if_neg h2, h, iff_false]
      split <;> simp
    · simp only [deleteLine, if_neg h2, h, iff_false]
      simp
    · simp only [deleteLine, if_neg h2, h, iff_false]
      simp

theorem updateLine_deleteLine_fail_iff_witness :
    twoThenUndo.buffer.length = 1
      ∧ (twoThenUndo.updateLine (CInt.ofInt 1) (CInt.ofInt 0) ['x']).error
          = some EditorError.invalidLineNumber
      ∧ (twoThenUndo.updateLine (CInt.ofInt 1) (CInt.ofInt 0) ['x']).editor = twoThenUndo
      ∧ (twoThenUndo.deleteLine (CInt.ofInt (-1))).error = some EditorError.invalidLineNumber
      ∧ (twoThenUndo.deleteLine (CInt.ofInt (-1))).editor = twoThenUndo :=
  ⟨by decide,
    (updateLine_deleteLine_fail_iff twoThenUndo (CInt.ofInt 1) (CInt.ofInt 0) ['x']).1.2
      (Or.inr (by decide)),
    (updateLine_deleteLine_fail_iff twoThenUndo (CInt.ofInt 1) (CInt.ofInt 0) ['x']).2.2.1
      (Or.inr (by decide)),
    (updateLine_deleteLine_fail_iff twoThenUndo (CInt.ofInt (-1)) (CInt.ofInt 0) []).2.2.2.1.2
      (Or.inl (by decide)),
    (updateLine_deleteLine_fail_iff twoThenUndo (CInt.ofInt (-1)) (CInt.ofInt 0) []).2.2.2.2.2
      (Or.inl (by decide))⟩

/-- C12: when the cursor line is out of range (`lineNumber < 0` or
`lineNumber >= len(buffer)`, in particular for the cursor `(-1, -1)`),
`insertWord`, `updateWord` and `deleteWord` return without error and leave the
buffer and both stacks as they were. -/
theorem word_ops_out_of_range (e : LineEditor) (cursor : Cursor) (word oldWord newWord : Line)
    (h : lineOutOfRange e cursor.lineNumber) :
    ((e.insertWord cursor word).error = none ∧ (e.insertWord cursor word).editor = e)
      ∧ ((e.updateWord cursor oldWord newWord).error = none
        ∧ (e.updateWord cursor oldWord newWord).editor = e)
      ∧ ((e.deleteWord cursor word).error = none ∧ (e.deleteWord cursor word).editor = e) := by
  have hr := (lineInRange_eq_false_iff e cursor.lineNumber).2 h
  simp [insertWord, updateWord, deleteWord, hr]

theorem word_ops_out_of_range_witness :
    lineOutOfRange twoThenUndo Cursor.default.lineNumber
      ∧ twoThenUndo.redoStack = [⟨[['a'], ['b']], 'U'⟩]
      ∧ ((twoThenUndo.insertWord Cursor.default ['x']).error = none
        ∧ (twoThenUndo.insertWord Cursor.default ['x']).editor = twoThenUndo)
      ∧ ((twoThenUndo.updateWord Cursor.default ['a'] ['x']).error = none
        ∧ (twoThenUndo.updateWord Cursor.default ['a'] ['x']).editor = twoThenUndo)
      ∧ ((twoThenUndo.deleteWord Cursor.default ['x']).error = none
        ∧ (twoThenUndo.deleteWord Cursor.default ['x']).editor = twoThenUndo) :=
  ⟨Or.inl (by decide), by decide,
    word_ops_out_of_range twoThenUndo Cursor.default ['x'] ['a'] ['x'] (Or.inl (by decide))⟩

end MainCpp

namespace MainCpp

open LineEditor

/-! ## Invariants of the reachable states -/

/-- C18: when every `insertLine` call has a position in `0..24`, then in every
state reachable from the fresh editor by any sequence of calls, the buffer and
every snapshot on the undo stack and on the redo stack have at most `MAX_LINES`
lines. -/
theorem lines_le_of_shell_positions (e : LineEditor) (h : ReachableVia shellCall e) :
    e.buffer.length ≤ MAX_LINES
      ∧ (∀ s ∈ e.undoStack, s.lines.length ≤ MAX_LINES)
      ∧ (∀ s ∈ e.redoStack, s.lines.length ≤ MAX_LINES) :=
  linesBounded_of_reachableVia shellCall (fun _ _ hop => hop) e h

theorem lines_le_of_shell_positions_witness :
    ReachableVia shellCall
        ((Op.undo.run ((Op.insertLine (CInt.ofInt 24) ['x']).run LineEditor.new).editor).editor)
      ∧ ((Op.undo.run ((Op.insertLine (CInt.ofInt 24) ['x']).run LineEditor.new).editor).editor).redoStack
          = [⟨List.replicate 24 [] ++ [['x']], 'U'⟩]
      ∧ (((Op.undo.run ((Op.insertLine (CInt.ofInt 24) ['x']).run LineEditor.new).editor).editor).buffer.length
          ≤ MAX_LINES
        ∧ (∀ s ∈ ((Op.undo.run
              ((Op.insertLine (CInt.ofInt 24) ['x']).run LineEditor.new).editor).editor).undoStack,
            s.lines.length ≤ MAX_LINES)
        ∧ (∀ s ∈ ((Op.undo.run
              ((Op.insertLine (CInt.ofInt 24) ['x']).run LineEditor.new).editor).editor).redoStack,
            s.lines.length ≤ MAX_LINES)) :=
  ⟨ReachableVia.step _ Op.undo
      (ReachableVia.step LineEditor.new (Op.insertLine (CInt.ofInt 24) ['x']) ReachableVia.fresh
        (by decide : (0 : Int) ≤ (CInt.ofInt 24).val ∧ (CInt.ofInt 24).val ≤ 24))
      trivial,
    by decide,
    lines_le_of_shell_positions _
      (ReachableVia.step _ Op.undo
        (ReachableVia.step LineEditor.new (Op.insertLine (CInt.ofInt 24) ['x']) ReachableVia.fresh
          (by decide : (0 : Int) ≤ (CInt.ofInt 24).val ∧ (CInt.ofInt 24).val ≤ 24))
        trivial)⟩

theorem undo_history_length (e : LineEditor) :
    e.undo.editor.undoStack.length + e.undo.editor.redoStack.length
      = e.undoStack.length + e.redoStack.length := by
  cases hu : e.undoStack with
  | nil => simp [undo, hu]
  | cons top rest =>
    simp only [undo, hu, List.length_cons]
    omega

theorem redo_history_length (e : LineEditor) :
    e.redo.editor.undoStack.length + e.redo.editor.redoStack.length
      = e.undoStack.length + e.redoStack.length := by
  cases hr : e.redoStack with
  | nil => simp [redo, hr]
  | cons top rest =>
    simp only [redo, hr, List.length_cons]
    omega

/-- On a non-empty undo stack `undo` moves exactly one entry: the top of the
undo stack is removed and becomes the buffer, and a snapshot of the old buffer
is pushed onto the redo stack. -/
theorem undo_moves_one (e : LineEditor) (top : BufferState) (rest : List BufferState)
    (h : e.undoStack = top :: rest) :
    e.undo.editor.undoStack = rest
      ∧ e.undo.editor.redoStack = ⟨e.buffer, 'U'⟩ :: e.redoStack
      ∧ e.undo.editor.buffer = top.lines := by
  simp [undo, h]

/-- On a non-empty redo stack `redo` moves exactly one entry: the top of the
redo stack is removed and becomes the buffer, and a snapshot of the old buffer
is pushed onto the undo stack. -/
theorem redo_moves_one (e : LineEditor) (top : BufferState) (rest : List BufferState)
    (h : e.redoStack = top :: rest) :
    e.redo.editor.redoStack = rest
      ∧ e.redo.editor.undoStack = ⟨e.buffer, 'U'⟩ :: e.undoStack
      ∧ e.redo.editor.buffer = top.lines := by
  simp [redo, h]

theorem undo_of_empty (e : LineEditor) (h : e.undoStack = []) : e.undo.editor = e := by
  simp [undo, h]

theorem redo_of_empty (e : LineEditor) (h : e.redoStack = []) : e.redo.editor = e := by
  simp [redo, h]

/-- C19: in every state reachable from the fresh editor by any sequence of
calls, the undo stack and the redo stack together hold at most three
snapshots, so the redo stack never holds more than three.  On a non-empty
stack `undo` and `redo` each move exactly one entry to the other stack (the
top is popped, one snapshot is pushed on the other side), on an empty stack
they change nothing, so both keep the sum of the two sizes; and a call that
takes a snapshot leaves the redo stack empty and at most three snapshots on
the undo stack. -/
theorem history_size_le (e : LineEditor) (h : Reachable e) :
    e.undoStack.length + e.redoStack.length ≤ 3
      ∧ e.redoStack.length ≤ 3
      ∧ (∀ top rest, e.undoStack = top :: rest →
          e.undo.editor.undoStack = rest
            ∧ e.undo.editor.redoStack = ⟨e.buffer, 'U'⟩ :: e.redoStack
            ∧ e.undo.editor.undoStack.length + 1 = e.undoStack.length
            ∧ e.undo.editor.redoStack.length = e.redoStack.length + 1)
      ∧ (e.undoStack = [] → e.undo.editor = e)
      ∧ (∀ top rest, e.redoStack = top :: rest →
          e.redo.editor.redoStack = rest
            ∧ e.redo.editor.undoStack = ⟨e.buffer, 'U'⟩ :: e.undoStack
            ∧ e.redo.editor.redoStack.length + 1 = e.redoStack.length
            ∧ e.redo.editor.undoStack.length = e.undoStack.length + 1)
      ∧ (e.redoStack = [] → e.redo.editor = e)
      ∧ e.undo.editor.undoStack.length + e.undo.editor.redoStack.length
          = e.undoStack.length + e.redoStack.length
      ∧ e.redo.editor.undoStack.length + e.redo.editor.redoStack.length
          = e.undoStack.length + e.redoStack.length
      ∧ (∀ op : Op, op.takesSnapshot e = true →
          (op.run e).editor.redoStack = [] ∧ (op.run e).editor.undoStack.length ≤ 3) := by
  have hb : e.undoStack.length + e.redoStack.length ≤ 3 :=
    historyBounded_of_reachableVia _ e h
  refine ⟨hb, by omega, ?_, undo_of_empty e, ?_, redo_of_empty e, undo_history_length e,
    redo_history_length e, ?_⟩
  · intro top rest hu
    obtain ⟨h1, h2, _⟩ := undo_moves_one e top rest hu
    refine ⟨h1, h2, ?_, ?_⟩
    · rw [h1, hu]
      simp
    · rw [h2]
      simp
  · intro top rest hr
    obtain ⟨h1, h2, _⟩ := redo_moves_one e top rest hr
    refine ⟨h1, h2, ?_, ?_⟩
    · rw [h1, hr]
      simp
    · rw [h2]
      simp
  · intro op hs
    obtain ⟨b, tag, hu, hr, _⟩ := run_of_takesSnapshot op e hs
    refine ⟨hr, ?_⟩
    rw [hu]
    exact popWhileOver_length_le _

theorem history_size_le_witness :
    Reachable threeUndone
      ∧ threeUndone.undoStack.length = 0
      ∧ threeUndone.redoStack.length = 3
      ∧ threeUndone.redo.editor.undoStack.length = 1
      ∧ threeUndone.redo.editor.redoStack.length = 2
      ∧ threeUndone.undoStack.length + threeUndone.redoStack.length ≤ 3
      ∧ threeUndone.redoStack.length ≤ 3 :=
  ⟨reachable_runAll _, by decide, by decide, by decide, by decide,
    (history_size_le threeUndone (reachable_runAll _)).1,
    (history_size_le threeUndone (reachable_runAll _)).2.1⟩

/-- C20: for every editor whose undo stack holds fewer than three snapshots
and every operation that takes a snapshot on it without padding, `undo` right
after the operation restores the buffer from before the operation, returns the
undo stack to its contents from before the operation, and leaves on the redo
stack exactly one snapshot, the buffer left by the operation. -/
theorem undo_after_mutation_state (e : LineEditor) (op : Op)
    (hlim : e.undoStack.length < UNDO_LIMIT)
    (hsnap : op.takesSnapshot e = true)
    (hpad : op.pads e = false) :
    (op.run e).editor.undo.editor.buffer = e.buffer
      ∧ (op.run e).editor.undo.editor.undoStack = e.undoStack
      ∧ (op.run e).editor.undo.editor.redoStack = [⟨(op.run e).editor.buffer, 'U'⟩] := by
  obtain ⟨b, tag, hu, hr, hb⟩ := run_of_takesSnapshot op e hsnap
  rw [popWhileOver_of_le _ (by simpa using hlim)] at hu
  simp [undo, hu, hr, hb hpad]

theorem undo_after_mutation_state_witness :
    oneLine.undoStack.length < UNDO_LIMIT
      ∧ (Op.insertWord ⟨CInt.ofInt 0, CInt.ofInt 1⟩ ['b']).takesSnapshot oneLine = true
      ∧ ((Op.insertWord ⟨CInt.ofInt 0, CInt.ofInt 1⟩ ['b']).run oneLine).error = none
      ∧ ((Op.insertWord ⟨CInt.ofInt 0, CInt.ofInt 1⟩ ['b']).run oneLine).editor.buffer
          = [['a', 'b']]
      ∧ oneLine.buffer = [['a']]
      ∧ (((Op.insertWord ⟨CInt.ofInt 0, CInt.ofInt 1⟩ ['b']).run oneLine).editor.undo.editor.buffer
          = oneLine.buffer
        ∧ ((Op.insertWord ⟨CInt.ofInt 0, CInt.ofInt 1⟩ ['b']).run oneLine).editor.undo.editor.undoStack
          = oneLine.undoStack
        ∧ ((Op.insertWord ⟨CInt.ofInt 0, CInt.ofInt 1⟩ ['b']).run oneLine).editor.undo.editor.redoStack
          = [⟨((Op.insertWord ⟨CInt.ofInt 0, CInt.ofInt 1⟩ ['b']).run oneLine).editor.buffer, 'U'⟩]) :=
  ⟨by decide, by decide, by decide, by decide, by decide,
    undo_after_mutation_state oneLine (Op.insertWord ⟨CInt.ofInt 0, CInt.ofInt 1⟩ ['b'])
      (by decide) (by decide) (by decide)⟩

end MainCpp

namespace MainCpp

open LineEditor

/-! ## The effect of the line and word operations on the buffer -/

theorem vectorErase_eq (v : List Line) (i : Nat) :
    vectorErase v i = v.take i ++ v.drop (i + 1) := by
  induction v generalizing i with
  | nil => simp [vectorErase]
  | cons y ys ih =>
    cases i with
    | zero => simp [vectorErase]
    | succ n => simp [vectorErase, ih n]

theorem lineCheck_of_valid (e : LineEditor) (lineNumber : CInt) (hn : 0 ≤ lineNumber.val)
    (hlt : lineNumber.val.toNat < e.buffer.length) :
    ¬ (lineNumber.val < 0 ∨ lineNumber.toSize ≥ e.buffer.length) := by
  rw [CInt.toSize_of_nonneg lineNumber hn]
  omega

theorem lineInRange_of_valid (e : LineEditor) (lineNumber : CInt) (hn : 0 ≤ lineNumber.val)
    (hlt : lineNumber.val.toNat < e.buffer.length) : e.lineInRange lineNumber = true := by
  unfold lineInRange
  rw [CInt.toSize_of_nonneg lineNumber hn]
  simp [hn, hlt]

/-- C14: for a valid line number and `startPos ≥ 0`, `updateLine` returns
without error; if `startPos ≤ len(line)` the target line becomes its first
`startPos` characters followed by `newText`, otherwise the buffer is unchanged;
in both cases the number of lines and every other line are unchanged. -/
theorem updateLine_effect (e : LineEditor) (lineNumber startPos : CInt) (newText : Line)
    (hn : 0 ≤ lineNumber.val) (hlt : lineNumber.val.toNat < e.buffer.length)
    (hs : 0 ≤ startPos.val) :
    (e.updateLine lineNumber startPos newText).error = none
      ∧ (startPos.val.toNat ≤ (e.buffer.getD lineNumber.val.toNat []).length →
          (e.updateLine lineNumber startPos newText).editor.buffer
            = e.buffer.set lineNumber.val.toNat
                ((e.buffer.getD lineNumber.val.toNat []).take startPos.val.toNat ++ newText))
      ∧ ((e.buffer.getD lineNumber.val.toNat []).length < startPos.val.toNat →
          (e.updateLine lineNumber startPos newText).editor.buffer = e.buffer)
      ∧ (e.updateLine lineNumber startPos newText).editor.buffer.length = e.buffer.length
      ∧ (∀ j, j ≠ lineNumber.val.toNat →
          (e.updateLine lineNumber startPos newText).editor.buffer[j]? = e.buffer[j]?) := by
  have hc := lineCheck_of_valid e lineNumber hn hlt
  have h1 := CInt.toSize_of_nonneg lineNumber hn
  have h2 := CInt.toSize_of_nonneg startPos hs
  unfold updateLine
  rw [if_neg hc]
  simp only [saveBufferState, vectorGet, vectorSet, stringSubstr0, h1, h2]
  by_cases hle : startPos.val.toNat ≤ (e.buffer.getD lineNumber.val.toNat []).length
  · rw [if_pos hle, Nat.min_eq_left hle]
    refine ⟨rfl, fun _ => rfl, fun hgt => absurd hle (by omega), by simp, ?_⟩
    intro j hj
    simp [List.getElem?_set, Ne.symm hj]
  · rw [if_neg hle]
    exact ⟨rfl, fun h => absurd h hle, fun _ => rfl, rfl, fun _ _ => rfl⟩

theorem updateLine_effect_witness :
    (0 : Int) ≤ (CInt.ofInt 0).val
      ∧ (CInt.ofInt 0).val.toNat < catDog.buffer.length
      ∧ (catDog.updateLine (CInt.ofInt 0) (CInt.ofInt 4) ['x']).editor.buffer
          = [['c', 'a', 't', ' ', 'x'], ['d', 'o', 'g', ' ', 'c', 'a', 't']]
      ∧ (catDog.updateLine (CInt.ofInt 0) (CInt.ofInt 100) ['a', 'b', 'c']).editor.buffer
          = catDog.buffer
      ∧ (catDog.updateLine (CInt.ofInt 0) (CInt.ofInt 100) ['a', 'b', 'c']).editor.undoStack
          = [⟨catDog.buffer, 'U'⟩] :=
  ⟨by decide, by decide,
    (updateLine_effect catDog (CInt.ofInt 0) (CInt.ofInt 4) ['x'] (by decide) (by decide)
      (by decide)).2.1 (by decide),
    (updateLine_effect catDog (CInt.ofInt 0) (CInt.ofInt 100) ['a', 'b', 'c'] (by decide)
      (by decide) (by decide)).2.2.1 (by decide),
    by decide⟩

/-- C15: for a valid line number `n`, `deleteLine(n)` returns without error
and leaves the lines before index `n` followed by the lines after index `n`:
one line fewer, the lines before `n` at their index, each later line one index
up.  On a one-line buffer the result is the empty buffer, for which
`displayBuffer` writes "Buffer is empty". -/
theorem deleteLine_effect (e : LineEditor) (lineNumber : CInt)
    (hn : 0 ≤ lineNumber.val) (hlt : lineNumber.val.toNat < e.buffer.length) :
    (e.deleteLine lineNumber).error = none
      ∧ (e.deleteLine lineNumber).editor.buffer
          = e.buffer.take lineNumber.val.toNat ++ e.buffer.drop (lineNumber.val.toNat + 1)
      ∧ (e.deleteLine lineNumber).editor.buffer.length = e.buffer.length - 1
      ∧ (∀ j, j < lineNumber.val.toNat →
          (e.deleteLine lineNumber).editor.buffer[j]? = e.buffer[j]?)
      ∧ (∀ j, lineNumber.val.toNat ≤ j →
          (e.deleteLine lineNumber).editor.buffer[j]? = e.buffer[j + 1]?)
      ∧ (e.buffer.length = 1 →
          (e.deleteLine lineNumber).editor.buffer = []
            ∧ (e.deleteLine lineNumber).editor.displayBuffer = "Buffer is empty\n") := by
  have hc := lineCheck_of_valid e lineNumber hn hlt
  have h1 := CInt.toSize_of_nonneg lineNumber hn
  have hb : (e.deleteLine lineNumber).editor.buffer
      = e.buffer.take lineNumber.val.toNat ++ e.buffer.drop (lineNumber.val.toNat + 1) := by
    unfold deleteLine
    rw [if_neg hc]
    simp only [saveBufferState, h1, vectorErase_eq]
  have he : (e.deleteLine lineNumber).error = none := by
    unfold deleteLine
    rw [if_neg hc]
  have hlen : (e.deleteLine lineNumber).editor.buffer.length = e.buffer.length - 1 := by
    rw [hb]
    simp
    omega
  refine ⟨he, hb, hlen, ?_, ?_, ?_⟩
  · intro j hj
    rw [hb, List.getElem?_append_left (by simp; omega), List.getElem?_take_of_lt hj]
  · intro j hj
    rw [hb, List.getElem?_append_right (by simp; omega), List.getElem?_drop]
    congr 1
    simp
    omega
  · intro hone
    have hnil : (e.deleteLine lineNumber).editor.buffer = [] := by
      apply List.eq_nil_of_length_eq_zero
      rw [hlen, hone]
    refine ⟨hnil, ?_⟩
    unfold displayBuffer
    rw [hnil]
    rfl

theorem deleteLine_effect_witness :
    (0 : Int) ≤ (CInt.ofInt 0).val
      ∧ (CInt.ofInt 0).val.toNat < oneLine.buffer.length
      ∧ oneLine.buffer.length = 1
      ∧ (oneLine.deleteLine (CInt.ofInt 0)).editor.buffer = []
      ∧ (oneLine.deleteLine (CInt.ofInt 0)).editor.displayBuffer = "Buffer is empty\n" :=
  ⟨by decide, by decide, by decide,
    (deleteLine_effect oneLine (CInt.ofInt 0) (by decide) (by decide)).2.2.2.2.2 (by decide)⟩

end MainCpp

namespace MainCpp

open LineEditor

/-! ## `insertWord` -/

/-- C16, as stated, fails on the code: on the buffer `a`, `insertWord` at the
cursor `(0, 5)` does not append the word to the line; the string insert throws
its out-of-range error and the line stays `a`. -/
theorem insertWord_counterexample :
    oneLine.buffer = [['a']]
      ∧ (oneLine.insertWord ⟨CInt.ofInt 0, CInt.ofInt 5⟩ ['x']).error
          = some EditorError.stringOutOfRange
      ∧ (oneLine.insertWord ⟨CInt.ofInt 0, CInt.ofInt 5⟩ ['x']).editor.buffer = [['a']]
      ∧ (oneLine.insertWord ⟨CInt.ofInt 0, CInt.ofInt 5⟩ ['x']).editor.buffer ≠ [['a', 'x']] := by
  decide

/-- C16, amended: for a cursor with a line number in range and a position
`p ≥ 0`: if `p ≤ len(line)`, `insertWord` returns without error and the target
line becomes its first `p` characters, then the word, then its other
characters, every other line and the number of lines unchanged; if
`p > len(line)`, the call ends in the out-of-range error of the string insert
and no line is changed. -/
theorem insertWord_effect (e : LineEditor) (cursor : Cursor) (word : Line)
    (hn : 0 ≤ cursor.lineNumber.val) (hlt : cursor.lineNumber.val.toNat < e.buffer.length)
    (hp : 0 ≤ cursor.position.val) :
    (cursor.position.val.toNat ≤ (e.buffer.getD cursor.lineNumber.val.toNat []).length →
        (e.insertWord cursor word).error = none
          ∧ (e.insertWord cursor word).editor.buffer
              = e.buffer.set cursor.lineNumber.val.toNat
                  ((e.buffer.getD cursor.lineNumber.val.toNat []).take cursor.position.val.toNat
                    ++ word
                    ++ (e.buffer.getD cursor.lineNumber.val.toNat []).drop
                        cursor.position.val.toNat)
          ∧ (e.insertWord cursor word).editor.buffer.length = e.buffer.length
          ∧ (∀ j, j ≠ cursor.lineNumber.val.toNat →
              (e.insertWord cursor word).editor.buffer[j]? = e.buffer[j]?))
      ∧ ((e.buffer.getD cursor.lineNumber.val.toNat []).length < cursor.position.val.toNat →
        (e.insertWord cursor word).error = some EditorError.stringOutOfRange
          ∧ (e.insertWord cursor word).editor.buffer = e.buffer) := by
  have hr := lineInRange_of_valid e cursor.lineNumber hn hlt
  have h1 := CInt.toSize_of_nonneg cursor.lineNumber hn
  have h2 := CInt.toSize_of_nonneg cursor.position hp
  unfold insertWord
  rw [if_pos hr]
  simp only [saveBufferState, vectorGet, vectorSet, stringInsert, h1, h2]
  by_cases hle :
      cursor.position.val.toNat ≤ (e.buffer.getD cursor.lineNumber.val.toNat []).length
  · rw [if_neg (by omega)]
    refine ⟨fun _ => ⟨rfl, rfl, by simp, ?_⟩, fun hgt => absurd hle (by omega)⟩
    intro j hj
    simp [List.getElem?_set, Ne.symm hj]
  · rw [if_pos (by omega)]
    exact ⟨fun h => absurd h hle, fun _ => ⟨rfl, rfl⟩⟩

theorem insertWord_effect_witness :
    (0 : Int) ≤ (CInt.ofInt 1).val
      ∧ (CInt.ofInt 1).val.toNat < catDog.buffer.length
      ∧ (0 : Int) ≤ (CInt.ofInt 3).val
      ∧ (catDog.insertWord ⟨CInt.ofInt 1, CInt.ofInt 3⟩ ['s']).error = none
      ∧ (catDog.insertWord ⟨CInt.ofInt 1, CInt.ofInt 3⟩ ['s']).editor.buffer
          = [['c', 'a', 't', ' ', 'd', 'o', 'g'], ['d', 'o', 'g', 's', ' ', 'c', 'a', 't']] :=
  ⟨by decide, by decide, by decide,
    ((insertWord_effect catDog ⟨CInt.ofInt 1, CInt.ofInt 3⟩ ['s'] (by decide) (by decide)
      (by decide)).1 (by decide)).1,
    ((insertWord_effect catDog ⟨CInt.ofInt 1, CInt.ofInt 3⟩ ['s'] (by decide) (by decide)
      (by decide)).1 (by decide)).2.1⟩

end MainCpp

namespace MainCpp

open LineEditor

/-! ## `std::string::find` -/

theorem occursAt_zero_iff (rest word : Line) :
    occursAt rest word 0 ↔ word.isPrefixOf rest = true := by
  unfold occursAt
  rw [List.isPrefixOf_iff_prefix, List.prefix_iff_eq_take]
  simp only [Nat.zero_add, List.drop_zero]
  constructor
  · intro h
    exact h.2.symm
  · intro h
    refine ⟨?_, h.symm⟩
    have hl := congrArg List.length h
    simp only [List.length_take] at hl
    omega

theorem occursAt_succ_cons (c : Char) (tl word : Line) (q : Nat) :
    occursAt (c :: tl) word (q + 1) ↔ occursAt tl word q := by
  unfold occursAt
  simp only [List.length_cons, List.drop_succ_cons]
  constructor
  · intro h
    exact ⟨by omega, h.2⟩
  · intro h
    exact ⟨by omega, h.2⟩

theorem occursAt_drop (s word : Line) (pos q : Nat) (h : pos ≤ s.length) :
    occursAt (s.drop pos) word q ↔ occursAt s word (pos + q) := by
  unfold occursAt
  simp only [List.length_drop, List.drop_drop]
  constructor
  · intro hq
    exact ⟨by omega, hq.2⟩
  · intro hq
    exact ⟨by omega, hq.2⟩

theorem not_occursAt_nil_succ (word : Line) (q : Nat) : ¬ occursAt [] word (q + 1) := by
  unfold occursAt
  intro h
  simp at h

theorem findAt_some (word rest : Line) (idx r : Nat) (h : findAt word rest idx = some r) :
    ∃ q, r = idx + q ∧ occursAt rest word q ∧ ∀ q', q' < q → ¬ occursAt rest word q' := by
  induction rest generalizing idx with
  | nil =>
    unfold findAt at h
    split at h
    · rename_i hp
      refine ⟨0, by simpa using (Option.some.inj h).symm, (occursAt_zero_iff _ _).2 hp, ?_⟩
      intro q' hq'
      omega
    · simp at h
  | cons c tl ih =>
    unfold findAt at h
    split at h
    · rename_i hp
      refine ⟨0, by simpa using (Option.some.inj h).symm, (occursAt_zero_iff _ _).2 hp, ?_⟩
      intro q' hq'
      omega
    · rename_i hp
      obtain ⟨q, hr, hocc, hmin⟩ := ih (idx + 1) h
      refine ⟨q + 1, by omega, (occursAt_succ_cons c tl word q).2 hocc, ?_⟩
      intro q' hq'
      cases q' with
      | zero =>
        intro h0
        exact hp ((occursAt_zero_iff _ _).1 h0)
      | succ k =>
        intro hk
        exact hmin k (by omega) ((occursAt_succ_cons c tl word k).1 hk)

theorem findAt_none (word rest : Line) (idx : Nat) (h : findAt word rest idx = none) :
    ∀ q, ¬ occursAt rest word q := by
  induction rest generalizing idx with
  | nil =>
    unfold findAt at h
    split at h
    · simp at h
    · rename_i hp
      intro q
      cases q with
      | zero => exact fun h0 => hp ((occursAt_zero_iff _ _).1 h0)
      | succ k => exact not_occursAt_nil_succ word k
  | cons c tl ih =>
    unfold findAt at h
    split at h
    · simp at h
    · rename_i hp
      intro q
      cases q with
      | zero => exact fun h0 => hp ((occursAt_zero_iff _ _).1 h0)
      | succ k => exact fun hk => ih (idx + 1) h k ((occursAt_succ_cons c tl word k).1 hk)

/-- A successful `find` returns the smallest offset, not before `pos`, at
which the word occurs. -/
theorem stringFind_some (s word : Line) (pos r : Nat) (h : stringFind s word pos = some r) :
    pos ≤ r ∧ occursAt s word r ∧ ∀ q, pos ≤ q → q < r → ¬ occursAt s word q := by
  unfold stringFind at h
  split at h
  · simp at h
  · rename_i hpos
    have hle : pos ≤ s.length := by omega
    obtain ⟨q, hr, hocc, hmin⟩ := findAt_some word (s.drop pos) pos r h
    refine ⟨by omega, ?_, ?_⟩
    · rw [hr]
      exact (occursAt_drop s word pos q hle).1 hocc
    · intro q' h1 h2 hq'
      have hq'' : occursAt s word (pos + (q' - pos)) := by
        rw [Nat.add_sub_cancel' h1]
        exact hq'
      exact hmin (q' - pos) (by omega) ((occursAt_drop s word pos _ hle).2 hq'')

/-- A `find` that returns `npos` means the word occurs at no offset from `pos` on. -/
theorem stringFind_none (s word : Line) (pos : Nat) (h : stringFind s word pos = none) :
    ∀ q, pos ≤ q → ¬ occursAt s word q := by
  unfold stringFind at h
  intro q hq hocc
  split at h
  · rename_i hpos
    unfold occursAt at hocc
    omega
  · rename_i hpos
    have hle : pos ≤ s.length := by omega
    have hq'' : occursAt s word (pos + (q - pos)) := by
      rw [Nat.add_sub_cancel' hq]
      exact hocc
    exact findAt_none word (s.drop pos) pos h (q - pos) ((occursAt_drop s word pos _ hle).2 hq'')

/-- The smallest offset is unique, so `find` returns it whenever there is one. -/
theorem stringFind_eq_of_first (s word : Line) (pos q : Nat) (hq : pos ≤ q)
    (hocc : occursAt s word q) (hmin : ∀ q', pos ≤ q' → q' < q → ¬ occursAt s word q') :
    stringFind s word pos = some q := by
  cases hf : stringFind s word pos with
  | none => exact absurd hocc (stringFind_none s word pos hf q hq)
  | some r =>
    obtain ⟨h1, h2, h3⟩ := stringFind_some s word pos r hf
    have hrq : ¬ r < q := fun hlt => hmin r h1 hlt h2
    have hqr : ¬ q < r := fun hlt => h3 q hq hlt hocc
    have : r = q := by omega
    rw [this]

end MainCpp

namespace MainCpp

open LineEditor

/-! ## `updateWord` -/

theorem stringReplace_of_occursAt (line word str : Line) (q : Nat) (h : occursAt line word q) :
    stringReplace line q word.length str
      = line.take q ++ str ++ line.drop (q + word.length) := by
  unfold stringReplace
  have hle : q + word.length ≤ line.length := h.1
  rw [Nat.min_eq_left (by omega)]

/-- C17: for a cursor with a line number in range and a position `p ≥ 0`,
`updateWord` returns without error; if `oldWord` occurs in the target line at
an offset `≥ p` and `q` is the smallest such offset, the line becomes its first
`q` characters, then `newWord`, then its characters from `q + len(oldWord)` on;
if there is no such occurrence the buffer is unchanged; the number of lines and
every other line are unchanged in both cases. -/
theorem updateWord_effect (e : LineEditor) (cursor : Cursor) (oldWord newWord : Line)
    (hn : 0 ≤ cursor.lineNumber.val) (hlt : cursor.lineNumber.val.toNat < e.buffer.length)
    (hp : 0 ≤ cursor.position.val) :
    (e.updateWord cursor oldWord newWord).error = none
      ∧ (∀ q, cursor.position.val.toNat ≤ q →
          occursAt (e.buffer.getD cursor.lineNumber.val.toNat []) oldWord q →
          (∀ q', q' < q → cursor.position.val.toNat ≤ q' →
            ¬ occursAt (e.buffer.getD cursor.lineNumber.val.toNat []) oldWord q') →
          (e.updateWord cursor oldWord newWord).editor.buffer
            = e.buffer.set cursor.lineNumber.val.toNat
                ((e.buffer.getD cursor.lineNumber.val.toNat []).take q ++ newWord
                  ++ (e.buffer.getD cursor.lineNumber.val.toNat []).drop (q + oldWord.length)))
      ∧ ((∀ q, cursor.position.val.toNat ≤ q →
            ¬ occursAt (e.buffer.getD cursor.lineNumber.val.toNat []) oldWord q) →
          (e.updateWord cursor oldWord newWord).editor.buffer = e.buffer)
      ∧ (e.updateWord cursor oldWord newWord).editor.buffer.length = e.buffer.length
      ∧ (∀ j, j ≠ cursor.lineNumber.val.toNat →
          (e.updateWord cursor oldWord newWord).editor.buffer[j]? = e.buffer[j]?) := by
  have hr := lineInRange_of_valid e cursor.lineNumber hn hlt
  have h1 := CInt.toSize_of_nonneg cursor.lineNumber hn
  have h2 := CInt.toSize_of_nonneg cursor.position hp
  unfold updateWord
  rw [if_pos hr]
  simp only [saveBufferState, vectorGet, vectorSet, h1, h2]
  cases hf : stringFind (e.buffer.getD cursor.lineNumber.val.toNat []) oldWord
      cursor.position.val.toNat with
  | none =>
    have hnone := stringFind_none _ _ _ hf
    refine ⟨rfl, ?_, fun _ => rfl, rfl, fun _ _ => rfl⟩
    intro q hq hocc _
    exact absurd hocc (hnone q hq)
  | some r =>
    obtain ⟨hr1, hr2, hr3⟩ := stringFind_some _ _ _ _ hf
    refine ⟨rfl, ?_, ?_, by simp, ?_⟩
    · intro q hq hocc hmin
      have hrq : ¬ r < q := fun hlt => hmin r hlt hr1 hr2
      have hqr : ¬ q < r := fun hlt => hr3 q hq hlt hocc
      have heq : r = q := by omega
      subst heq
      simp only [stringReplace_of_occursAt _ _ _ _ hr2]
    · intro hno
      exact absurd hr2 (hno r hr1)
    · intro j hj
      simp [List.getElem?_set, Ne.symm hj]

theorem updateWord_effect_witness :
    (0 : Int) ≤ (CInt.ofInt 0).val
      ∧ (CInt.ofInt 0).val.toNat < catDog.buffer.length
      ∧ (0 : Int) ≤ (CInt.ofInt 1).val
      ∧ occursAt (catDog.buffer.getD (CInt.ofInt 0).val.toNat []) ['d', 'o', 'g'] 4
      ∧ (catDog.updateWord ⟨CInt.ofInt 0, CInt.ofInt 1⟩ ['d', 'o', 'g'] ['e', 'm', 'u', 's']).editor.buffer
          = [['c', 'a', 't', ' ', 'e', 'm', 'u', 's'], ['d', 'o', 'g', ' ', 'c', 'a', 't']]
      ∧ (catDog.updateWord ⟨CInt.ofInt 1, CInt.ofInt 1⟩ ['d', 'o', 'g'] ['e', 'm', 'u', 's']).editor.buffer
          = catDog.buffer :=
  ⟨by decide, by decide, by decide, by decide,
    (updateWord_effect catDog ⟨CInt.ofInt 0, CInt.ofInt 1⟩ ['d', 'o', 'g'] ['e', 'm', 'u', 's']
      (by decide) (by decide) (by decide)).2.1 4 (by decide) (by decide) (by decide),
    by decide⟩

end MainCpp

namespace MainCpp

open LineEditor

/-! ## `searchWord` -/

theorem CInt.ofInt_val_of_lt (n : Nat) (h : n < 2147483648) : (CInt.ofInt n).val = n := by
  simp only [CInt.ofInt]
  omega

theorem not_containsWord_of_find_none (line word : Line) (h : stringFind line word 0 = none) :
    ¬ containsWord line word := by
  rintro ⟨q, hq⟩
  exact stringFind_none line word 0 h q (Nat.zero_le q) hq

/-- The loop of `searchWord` either finds no line that contains the word and
returns the default cursor, or returns the narrowed first match. -/
theorem searchFrom_cases (word : Line) (lines : List Line) (i : Nat) :
    ((∀ line ∈ lines, ¬ containsWord line word) ∧ searchFrom word lines i = Cursor.default)
      ∨ (∃ k p, firstMatch lines word k p
          ∧ searchFrom word lines i = ⟨CInt.ofInt (i + k : Nat), CInt.ofInt p⟩) := by
  induction lines generalizing i with
  | nil =>
    left
    exact ⟨fun line hl => by simp at hl, rfl⟩
  | cons line rest ih =>
    cases hf : stringFind line word 0 with
    | some pos =>
      right
      obtain ⟨_, hocc, hmin⟩ := stringFind_some line word 0 pos hf
      refine ⟨0, pos, ⟨by simp, by simpa using hocc, fun j hj => by omega, ?_⟩, ?_⟩
      · intro q hq
        simpa using hmin q (Nat.zero_le q) hq
      · simp [searchFrom, hf]
    | none =>
      have hnot := not_containsWord_of_find_none line word hf
      rcases ih (i + 1) with ⟨hall, hres⟩ | ⟨k, p, ⟨hk, hocc, hbefore, hmin⟩, hres⟩
      · left
        refine ⟨?_, ?_⟩
        · intro l hl
          rcases List.mem_cons.1 hl with rfl | hl
          · exact hnot
          · exact hall l hl
        · simp only [searchFrom, hf]
          exact hres
      · right
        refine ⟨k + 1, p, ⟨by simpa using hk, by simpa using hocc, ?_, ?_⟩, ?_⟩
        · intro j hj
          cases j with
          | zero => simpa using hnot
          | succ m => simpa using hbefore m (by omega)
        · intro q hq
          simpa using hmin q hq
        · simp only [searchFrom, hf]
          rw [hres]
          have : i + 1 + k = i + (k + 1) := by omega
          rw [this]

theorem firstMatch_unique (lines : List Line) (word : Line) (i p k q : Nat)
    (h1 : firstMatch lines word i p) (h2 : firstMatch lines word k q) : i = k ∧ p = q := by
  obtain ⟨_, ho1, hb1, hm1⟩ := h1
  obtain ⟨_, ho2, hb2, hm2⟩ := h2
  have hik : i = k := by
    have h3 : ¬ i < k := fun hlt => hb2 i hlt ⟨p, ho1⟩
    have h4 : ¬ k < i := fun hlt => hb1 k hlt ⟨q, ho2⟩
    omega
  subst hik
  have h5 : ¬ p < q := fun hlt => hm2 p hlt ho1
  have h6 : ¬ q < p := fun hlt => hm1 q hlt ho2
  exact ⟨rfl, by omega⟩

theorem getD_mem_of_lt (lines : List Line) (i : Nat) (h : i < lines.length) :
    lines.getD i [] ∈ lines := by
  rw [List.getD_eq_getElem lines [] h]
  exact List.getElem_mem h

theorem occursAt_longLine (n q : Nat) :
    occursAt (List.replicate n 'a' ++ ['b']) ['b'] q ↔ q = n := by
  induction n generalizing q with
  | zero =>
    unfold occursAt
    cases q with
    | zero => simp
    | succ k => simp
  | succ m ih =>
    rw [List.replicate_succ, List.cons_append]
    cases q with
    | zero =>
      rw [occursAt_zero_iff]
      simp [List.isPrefixOf]
    | succ k =>
      rw [occursAt_succ_cons, ih k]
      omega

/-- C13, as stated, fails on the code for offsets that do not fit in an `int`:
in the one-line buffer whose line is `2 ^ 31` characters `a` followed by `b`,
the word `b` occurs at offset `2147483648` and at no smaller offset, and
`searchWord` returns the cursor `(0, -2147483648)`, the offset narrowed to the
`int` field of `Cursor`. -/
theorem searchWord_counterexample :
    firstMatch longLineEditor.buffer ['b'] 0 2147483648
      ∧ (longLineEditor.searchWord ['b']).lineNumber.val = 0
      ∧ (longLineEditor.searchWord ['b']).position.val = -2147483648
      ∧ (longLineEditor.searchWord ['b']).position.val ≠ 2147483648 := by
  have hfirst : firstMatch longLineEditor.buffer ['b'] 0 2147483648 := by
    refine ⟨Nat.zero_lt_one, ?_, fun j hj => absurd hj (Nat.not_lt_zero j), ?_⟩
    · exact (occursAt_longLine 2147483648 2147483648).2 rfl
    · intro q hq hocc
      have := (occursAt_longLine 2147483648 q).1 hocc
      omega
  have hres : longLineEditor.searchWord ['b']
      = ⟨CInt.ofInt (0 + 0 : Nat), CInt.ofInt (2147483648 : Nat)⟩ := by
    rcases searchFrom_cases ['b'] longLineEditor.buffer 0 with ⟨hall, _⟩ | ⟨k, p, hkp, hres⟩
    · exact absurd ⟨2147483648, hfirst.2.1⟩ (hall _ (getD_mem_of_lt _ 0 Nat.zero_lt_one))
    · obtain ⟨hk, hp⟩ := firstMatch_unique _ _ _ _ _ _ hkp hfirst
      subst hk
      subst hp
      exact hres
  rw [hres]
  refine ⟨hfirst, ?_, ?_, ?_⟩ <;> decide

end MainCpp

namespace MainCpp

open LineEditor

/-- C13, amended: for every buffer of fewer than `2 ^ 31` lines, each of fewer
than `2 ^ 31` characters, and every word, `searchWord` returns the cursor
`(-1, -1)` exactly when no line contains the word as a contiguous substring;
otherwise it returns `(i, p)` with `i` the smallest index of a line that
contains the word and `p` the smallest offset at which the word occurs in
line `i`. -/
theorem searchWord_first_match (e : LineEditor) (word : Line) (hfit : fitsInt e) :
    (((e.searchWord word).lineNumber.val = -1 ∧ (e.searchWord word).position.val = -1)
        ↔ ∀ line ∈ e.buffer, ¬ containsWord line word)
      ∧ ((∃ line ∈ e.buffer, containsWord line word) →
          ∃ i p, firstMatch e.buffer word i p)
      ∧ (∀ i p, firstMatch e.buffer word i p →
          (e.searchWord word).lineNumber.val = i ∧ (e.searchWord word).position.val = p) := by
  have hnarrow : ∀ k p, firstMatch e.buffer word k p →
      e.searchWord word = ⟨CInt.ofInt (0 + k : Nat), CInt.ofInt p⟩ →
      (e.searchWord word).lineNumber.val = k ∧ (e.searchWord word).position.val = p := by
    intro k p hkp hres
    have hk : k < 2147483648 := Nat.lt_trans hkp.1 hfit.1
    have hp : p < 2147483648 := by
      have hl := hfit.2 _ (getD_mem_of_lt e.buffer k hkp.1)
      have ho : p + word.length ≤ (e.buffer.getD k []).length := hkp.2.1.1
      omega
    rw [hres]
    simp only [Nat.zero_add]
    exact ⟨CInt.ofInt_val_of_lt k hk, CInt.ofInt_val_of_lt p hp⟩
  rcases searchFrom_cases word e.buffer 0 with ⟨hall, hres⟩ | ⟨k, p, hkp, hres⟩
  · have hres2 : e.searchWord word = Cursor.default := hres
    refine ⟨?_, ?_, ?_⟩
    · rw [hres2]
      exact ⟨fun _ => hall, fun _ => ⟨rfl, rfl⟩⟩
    · rintro ⟨line, hl, hc⟩
      exact absurd hc (hall line hl)
    · intro i q hiq
      exact absurd ⟨q, hiq.2.1⟩ (hall _ (getD_mem_of_lt e.buffer i hiq.1))
  · have hvals := hnarrow k p hkp hres
    refine ⟨?_, fun _ => ⟨k, p, hkp⟩, ?_⟩
    · constructor
      · intro hneg
        have h1 := hvals.1
        omega
      · intro hnone
        exact absurd ⟨p, hkp.2.1⟩ (hnone _ (getD_mem_of_lt e.buffer k hkp.1))
    · intro i q hiq
      obtain ⟨hi, hq⟩ := firstMatch_unique _ _ _ _ _ _ hiq hkp
      rw [hi, hq]
      exact hvals

theorem searchWord_first_match_witness :
    fitsInt catDog
      ∧ firstMatch catDog.buffer ['d', 'o', 'g'] 0 4
      ∧ (catDog.searchWord ['d', 'o', 'g']).lineNumber.val = 0
      ∧ (catDog.searchWord ['d', 'o', 'g']).position.val = 4
      ∧ (catDog.searchWord ['e', 'm', 'u']).lineNumber.val = -1
      ∧ (catDog.searchWord ['e', 'm', 'u']).position.val = -1 :=
  ⟨⟨by decide, by decide⟩,
    ⟨by decide, by decide, fun j hj => absurd hj (Nat.not_lt_zero j), by decide⟩,
    ((searchWord_first_match catDog ['d', 'o', 'g'] ⟨by decide, by decide⟩).2.2 0 4
      ⟨by decide, by decide, fun j hj => absurd hj (Nat.not_lt_zero j), by decide⟩).1,
    ((searchWord_first_match catDog ['d', 'o', 'g'] ⟨by decide, by decide⟩).2.2 0 4
      ⟨by decide, by decide, fun j hj => absurd hj (Nat.not_lt_zero j), by decide⟩).2,
    by decide, by decide⟩

end MainCpp
